import Mathlib

/-!
Verification development for the FHEROckPaperScissors contract
(contracts/FHEROckPaperScissors.sol).

The contract is shallowly embedded: addresses, uint8 values, uint256 values
and ciphertext handles are modelled as Nat (the zero address is 0), storage
mappings are modelled as total functions with the Solidity default value,
and each external function becomes a Lean function returning
Except RPSError (new storage plus the emitted events).  A reverting call
leaves storage untouched, which `applyOp` makes explicit.

External collaborators are treated as opaque capabilities, following the
contract:
  - FHE.fromExternal and FHE.checkSignatures verify proofs inside the FHE
    library and revert the whole transaction on failure; both are modelled
    by a Boolean `proofOk` argument (failure surfaces as the
    `ExternalCheckFailed` error, standing for the library-level revert).
  - FHE.requestDecryption returns a request identifier chosen by the
    environment; it is modelled as the `reqId` argument of `submitMove`.
    Well-formedness of the environment (`WFOp`) records that the oracle
    hands out nonzero, globally fresh identifiers.
-/

namespace RPS

inductive GameState where
  | Open
  | Ready
  | Started
  | Revealing
  | Revealed
deriving DecidableEq, Repr

structure PlayerState where
  joined : Bool := false
  moveSubmitted : Bool := false
  moveRevealed : Bool := false
  encryptedMove : Nat := 0
  revealedMove : Nat := 0
deriving DecidableEq, Repr

structure Game where
  host : Nat := 0
  maxPlayers : Nat := 0
  state : GameState := .Open
  movesSubmitted : Nat := 0
  revealRequestId : Nat := 0
  players : List Nat := []
  winners : List Nat := []
  revealedMoves : List Nat := []
deriving DecidableEq, Repr

inductive RPSError where
  | InvalidPlayerLimit
  | GameNotFound (gameId : Nat)
  | GameStateMismatch (gameId : Nat) (expected actual : GameState)
  | PlayerAlreadyJoined (gameId : Nat) (player : Nat)
  | GameIsFull (gameId : Nat)
  | PlayerNotInGame (gameId : Nat) (player : Nat)
  | MoveAlreadySubmitted (gameId : Nat) (player : Nat)
  | InvalidMoveValue (move : Nat)
  | InvalidRevealRequest (requestId : Nat)
  | UnexpectedResultLength (expected actual : Nat)
  | InvalidOracleAddress
  | Unauthorized (sender : Nat)
  | ExternalCheckFailed
deriving DecidableEq, Repr

inductive Event where
  | GameCreated (gameId host maxPlayers : Nat)
  | PlayerJoined (gameId player : Nat)
  | GameReady (gameId : Nat)
  | GameStarted (gameId starter : Nat)
  | MoveSubmitted (gameId player : Nat)
  | RevealRequested (gameId requestId : Nat)
  | GameRevealed (gameId : Nat) (winners : List Nat) (winningMove : Nat)
deriving DecidableEq, Repr

/-- The contract storage: `_nextGameId`, `decryptionOracle`, `_games`,
`_playerStates` and `_requestToGame`. -/
structure Contract where
  nextGameId : Nat
  decryptionOracle : Nat
  games : Nat → Game
  playerStates : Nat → Nat → PlayerState
  requestToGame : Nat → Nat

def Contract.setGame (c : Contract) (gid : Nat) (g : Game) : Contract :=
  { c with games := fun i => if i = gid then g else c.games i }

def Contract.setPlayer (c : Contract) (gid p : Nat) (st : PlayerState) : Contract :=
  { c with playerStates := fun i q => if i = gid ∧ q = p then st else c.playerStates i q }

def Contract.setRequest (c : Contract) (r v : Nat) : Contract :=
  { c with requestToGame := fun i => if i = r then v else c.requestToGame i }

/-- `_nextGameId++`. -/
def Contract.bumpNext (c : Contract) : Contract :=
  { c with nextGameId := c.nextGameId + 1 }

/-- `createGame` (source lines 75-94).  Besides the new storage and the
events, the result carries the returned `gameId`. -/
def createGame (c : Contract) (sender maxPlayers : Nat) :
    Except RPSError (Nat × Contract × List Event) :=
  if maxPlayers < 2 ∨ maxPlayers > 4 then
    .error .InvalidPlayerLimit
  else
    let gameId := c.nextGameId
    let game := c.games gameId
    let game := { game with host := sender, maxPlayers := maxPlayers, state := .Open,
                            players := game.players ++ [sender] }
    let st := c.playerStates gameId sender
    let st := { st with joined := true }
    let c' := (c.bumpNext.setGame gameId game).setPlayer gameId sender st
    .ok (gameId, c', [.GameCreated gameId sender maxPlayers, .PlayerJoined gameId sender])

/-- `joinGame` (source lines 98-122).  `_getExistingGame` is inlined as the
`host = 0` test. -/
def joinGame (c : Contract) (sender gameId : Nat) : Except RPSError (Contract × List Event) :=
  let game := c.games gameId
  if game.host = 0 then .error (.GameNotFound gameId)
  else if game.state ≠ .Open then .error (.GameStateMismatch gameId .Open game.state)
  else
    let st := c.playerStates gameId sender
    if st.joined then .error (.PlayerAlreadyJoined gameId sender)
    else if game.players.length ≥ game.maxPlayers then .error (.GameIsFull gameId)
    else
      let st := { st with joined := true }
      let game := { game with players := game.players ++ [sender] }
      if game.players.length = game.maxPlayers then
        .ok (((c.setGame gameId { game with state := .Ready }).setPlayer gameId sender st),
             [.PlayerJoined gameId sender, .GameReady gameId])
      else
        .ok (((c.setGame gameId game).setPlayer gameId sender st),
             [.PlayerJoined gameId sender])

/-- `startGame` (source lines 126-137). -/
def startGame (c : Contract) (sender gameId : Nat) : Except RPSError (Contract × List Event) :=
  let game := c.games gameId
  if game.host = 0 then .error (.GameNotFound gameId)
  else if sender ≠ game.host then .error (.Unauthorized sender)
  else if game.state ≠ .Ready then .error (.GameStateMismatch gameId .Ready game.state)
  else
    .ok (c.setGame gameId { game with state := .Started }, [.GameStarted gameId sender])

/-- `_finalizeSubmissions` (source lines 304-319).  The collection of the
encrypted handles is internal to the FHE library; `reqId` is the identifier
returned by `FHE.requestDecryption`. -/
def finalizeSubmissions (c : Contract) (gameId reqId : Nat) : Contract × List Event :=
  let game := c.games gameId
  let game := { game with state := .Revealing, revealRequestId := reqId }
  (((c.setGame gameId game).setRequest reqId (gameId + 1)), [.RevealRequested gameId reqId])

/-- `submitMove` (source lines 143-170).  `encHandle` stands for the verified
ciphertext handle produced by `FHE.fromExternal`; `proofOk` is the outcome of
its proof verification and `reqId` the identifier `FHE.requestDecryption`
would return inside `_finalizeSubmissions`. -/
def submitMove (c : Contract) (sender gameId encHandle reqId : Nat) (proofOk : Bool) :
    Except RPSError (Contract × List Event) :=
  let game := c.games gameId
  if game.host = 0 then .error (.GameNotFound gameId)
  else if game.state ≠ .Started then .error (.GameStateMismatch gameId .Started game.state)
  else
    let st := c.playerStates gameId sender
    if st.joined = false then .error (.PlayerNotInGame gameId sender)
    else if st.moveSubmitted then .error (.MoveAlreadySubmitted gameId sender)
    else if proofOk = false then .error .ExternalCheckFailed
    else
      let st := { st with encryptedMove := encHandle, moveSubmitted := true }
      let game := { game with movesSubmitted := game.movesSubmitted + 1 }
      let c1 := (c.setGame gameId game).setPlayer gameId sender st
      if game.movesSubmitted = game.maxPlayers then
        let fin := finalizeSubmissions c1 gameId reqId
        .ok (fin.1, .MoveSubmitted gameId sender :: fin.2)
      else
        .ok (c1, [.MoveSubmitted gameId sender])

/-- The 32-byte big-endian word starting at byte offset `off` of the
cleartext payload (the `mload` in the source assembly block; bytes past the
end read as zero). -/
def word32At (bs : List Nat) (off : Nat) : Nat :=
  (List.range 32).foldl (fun acc j => acc * 256 + bs.getD (off + j) 0) 0

/-- `uint8(uint256(word))` for slot `i`: the low byte of the i-th
32-byte word. -/
def decodedMove (bs : List Nat) (i : Nat) : Nat :=
  word32At bs (32 * i) % 256

/-- The decode-and-validate loop of `handleDecryptionResult` (source lines
216-240): walks the players in join order, decodes each slot, rejects any
value outside 1..3, marks the player state revealed and accumulates the
revealed moves. -/
def revealLoop (gid : Nat) (bs : List Nat) :
    Contract → List Nat → Nat → List Nat → Except RPSError (Contract × List Nat)
  | c, [], _, revealed => .ok (c, revealed)
  | c, p :: rest, i, revealed =>
      let mv := decodedMove bs i
      if mv < 1 ∨ mv > 3 then .error (.InvalidMoveValue mv)
      else
        revealLoop gid bs
          (c.setPlayer gid p
            { c.playerStates gid p with moveRevealed := true, revealedMove := mv })
          rest (i + 1) (revealed ++ [mv])

/-- One step of the hasRock / hasPaper / hasScissors accumulation performed
inside the decode loop (source lines 233-239). -/
def flagStep (f : Bool × Bool × Bool) (mv : Nat) : Bool × Bool × Bool :=
  (f.1 || mv == 1, f.2.1 || mv == 2, f.2.2 || mv == 3)

/-- The (hasRock, hasPaper, hasScissors) booleans accumulated over the
decoded moves. -/
def movesFlags (ms : List Nat) : Bool × Bool × Bool :=
  ms.foldl flagStep (false, false, false)

/-- `_determineWinningMove` (source lines 321-341). -/
def determineWinningMove (hasRock hasPaper hasScissors : Bool) : Nat :=
  let distinctMoves := (if hasRock then 1 else 0) + (if hasPaper then 1 else 0) +
    (if hasScissors then 1 else 0)
  if distinctMoves ≠ 2 then 0
  else if hasRock && hasPaper then 2
  else if hasPaper && hasScissors then 3
  else if hasRock && hasScissors then 1
  else 0

/-- The winning move of a revealed move list: `_determineWinningMove` applied
to the accumulated presence flags. -/
def winningOf (ms : List Nat) : Nat :=
  determineWinningMove (movesFlags ms).1 (movesFlags ms).2.1 (movesFlags ms).2.2

/-- The winner-collection loop of `handleDecryptionResult` (source lines
244-250): if there is a winning move, every player whose revealed move equals
it, in join order. -/
def collectWinners (players revealedMoves : List Nat) (winningMove : Nat) : List Nat :=
  if winningMove ≠ 0 then
    ((players.zip revealedMoves).filter (fun q => q.2 == winningMove)).map Prod.fst
  else []

/-- The full winner resolver on (player, revealed move) pairs. -/
def resolveWinners (pairs : List (Nat × Nat)) : List Nat :=
  collectWinners (pairs.map Prod.fst) (pairs.map Prod.snd) (winningOf (pairs.map Prod.snd))

/-- `handleDecryptionResult` (source lines 176-255).  `proofOk` is the
outcome of `FHE.checkSignatures`. -/
def handleDecryptionResult (c : Contract) (sender requestId : Nat) (cleartexts : List Nat)
    (proofOk : Bool) : Except RPSError (Contract × List Event) :=
  if sender ≠ c.decryptionOracle then .error (.Unauthorized sender)
  else
    let encodedGame := c.requestToGame requestId
    if encodedGame = 0 then .error (.InvalidRevealRequest requestId)
    else
      let gameId := encodedGame - 1
      let game := c.games gameId
      if game.host = 0 then .error (.GameNotFound gameId)
      else if game.revealRequestId ≠ requestId then .error (.InvalidRevealRequest requestId)
      else if game.state ≠ .Revealing then
        .error (.GameStateMismatch gameId .Revealing game.state)
      else if proofOk = false then .error .ExternalCheckFailed
      else
        let expectedLength := game.players.length * 32
        if cleartexts.length ≠ expectedLength then
          .error (.UnexpectedResultLength expectedLength cleartexts.length)
        else
          let c0 := c.setGame gameId { game with revealedMoves := [], winners := [] }
          match revealLoop gameId cleartexts c0 game.players 0 [] with
          | .error e => .error e
          | .ok (c1, revealed) =>
            let winningMove := winningOf revealed
            let winners := collectWinners game.players revealed winningMove
            let newGame :=
              { c1.games gameId with
                  revealedMoves := revealed, winners := winners, state := .Revealed }
            let c2 := (c1.setGame gameId newGame).setRequest requestId 0
            .ok (c2, [.GameRevealed gameId winners winningMove])

/-- One external transaction against the contract. -/
inductive Op where
  | create (sender maxPlayers : Nat)
  | join (sender gameId : Nat)
  | start (sender gameId : Nat)
  | submit (sender gameId encHandle reqId : Nat) (proofOk : Bool)
  | callback (sender requestId : Nat) (cleartexts : List Nat) (proofOk : Bool)
deriving DecidableEq, Repr

def execOp (c : Contract) : Op → Except RPSError (Contract × List Event)
  | .create s m => (createGame c s m).map (fun r => r.2)
  | .join s g => joinGame c s g
  | .start s g => startGame c s g
  | .submit s g h r pf => submitMove c s g h r pf
  | .callback s r bs pf => handleDecryptionResult c s r bs pf

/-- A reverting transaction leaves storage untouched and emits nothing. -/
def applyOp (c : Contract) (op : Op) : Contract × List Event :=
  match execOp c op with
  | .ok res => res
  | .error _ => (c, [])

/-- Environment well-formedness of a transaction: callers are real (nonzero)
addresses, and `FHE.requestDecryption` hands out nonzero identifiers that are
globally fresh (never currently indexed and never equal to an identifier
already recorded by any game). -/
def WFOp (c : Contract) : Op → Prop
  | .create s _ => s ≠ 0
  | .join s _ => s ≠ 0
  | .start s _ => s ≠ 0
  | .submit s _ _ r _ => s ≠ 0 ∧ r ≠ 0 ∧ c.requestToGame r = 0 ∧
      ∀ g < c.nextGameId, (c.games g).revealRequestId ≠ r
  | .callback _ _ _ _ => True

instance (c : Contract) (op : Op) : Decidable (WFOp c op) := by
  cases op <;> simp only [WFOp] <;> infer_instance

def WFTrace (c : Contract) : List Op → Prop
  | [] => True
  | op :: rest => WFOp c op ∧ WFTrace (applyOp c op).1 rest

instance instWFTraceDec : (l : List Op) → (c : Contract) → Decidable (WFTrace c l)
  | [], _ => .isTrue trivial
  | op :: rest, c =>
      haveI : Decidable (WFTrace (applyOp c op).1 rest) := instWFTraceDec rest (applyOp c op).1
      inferInstanceAs (Decidable (WFOp c op ∧ WFTrace (applyOp c op).1 rest))

def runOps (c : Contract) : List Op → Contract
  | [] => c
  | op :: rest => runOps (applyOp c op).1 rest

def traceEvents (c : Contract) : List Op → List Event
  | [] => []
  | op :: rest => (applyOp c op).2 ++ traceEvents (applyOp c op).1 rest

/-- The storage right after the constructor ran with a nonzero oracle
address: all mappings hold Solidity default values and the counter is 0. -/
def initContract (oracle : Nat) : Contract :=
  { nextGameId := 0, decryptionOracle := oracle,
    games := fun _ => {}, playerStates := fun _ _ => {}, requestToGame := fun _ => 0 }

/-- States reachable from deployment through well-formed transactions. -/
inductive Reachable (oracle : Nat) : Contract → Prop where
  | init : oracle ≠ 0 → Reachable oracle (initContract oracle)
  | step {c : Contract} (op : Op) : Reachable oracle c → WFOp c op →
      Reachable oracle (applyOp c op).1

/-! Inversion lemmas: what a successful call tells us about the guards it
passed and the storage it produced. -/
/-! Inversion lemmas: what a successful call tells us about the guards it
passed and the storage it produced. -/
/-- The game record written by a successful `createGame`. -/
def createdGame (c : Contract) (s m : Nat) : Game :=
  { c.games c.nextGameId with
      host := s, maxPlayers := m, state := .Open,
      players := (c.games c.nextGameId).players ++ [s] }

/-- The game record written by a successful `joinGame`. -/
def joinedGame (c : Contract) (s gid : Nat) : Game :=
  { c.games gid with
      players := (c.games gid).players ++ [s],
      state := if (c.games gid).players.length + 1 = (c.games gid).maxPlayers
               then GameState.Ready else GameState.Open }

/-- Storage after the pure bookkeeping part of a successful `submitMove`
(before any finalization). -/
def submittedContract (c : Contract) (s gid eh : Nat) : Contract :=
  (c.setGame gid
      { c.games gid with movesSubmitted := (c.games gid).movesSubmitted + 1 }).setPlayer
    gid s { c.playerStates gid s with encryptedMove := eh, moveSubmitted := true }

/-- Number of reveal-request notifications for game `g` in an event list. -/
def countRR (g : Nat) (evs : List Event) : Nat :=
  (evs.filter (fun e => match e with
    | .RevealRequested g' _ => g' == g
    | _ => false)).length

/-- 1 exactly when the reveal request for game `g` has been issued (the game
is in Revealing or Revealed state). -/
def issuedN (c : Contract) (g : Nat) : Nat :=
  if (c.games g).state = .Revealing ∨ (c.games g).state = .Revealed then 1 else 0

/-- Per-game state-machine invariant of a created game (claim sources:
spec section 3 data-model invariant). -/
def GameInv (c : Contract) (g : Nat) : Prop :=
  (c.games g).host ≠ 0 ∧
  2 ≤ (c.games g).maxPlayers ∧ (c.games g).maxPlayers ≤ 4 ∧
  (c.games g).players.length ≤ (c.games g).maxPlayers ∧
  ((c.games g).state = .Open → (c.games g).players.length < (c.games g).maxPlayers) ∧
  ((c.games g).state ≠ .Open → (c.games g).players.length = (c.games g).maxPlayers) ∧
  (((c.games g).state = .Open ∨ (c.games g).state = .Ready) →
      (c.games g).movesSubmitted = 0 ∧ (c.games g).revealRequestId = 0) ∧
  ((c.games g).state = .Started →
      (c.games g).movesSubmitted < (c.games g).maxPlayers ∧
      (c.games g).revealRequestId = 0) ∧
  ((c.games g).state = .Revealing →
      (c.games g).movesSubmitted = (c.games g).maxPlayers ∧
      (c.games g).revealRequestId ≠ 0 ∧
      c.requestToGame (c.games g).revealRequestId = g + 1) ∧
  ((c.games g).state = .Revealed →
      (c.games g).movesSubmitted = (c.games g).maxPlayers ∧
      (c.games g).revealRequestId ≠ 0)

/-- Global storage invariant: ids at or above the counter are untouched,
every created game satisfies its state-machine invariant, the reverse
request index points at Revealing games that recorded the request,
submitted players are joined, and recorded request ids are unique. -/
def Inv (c : Contract) : Prop :=
  (∀ g, c.nextGameId ≤ g → c.games g = {} ∧ ∀ p, c.playerStates g p = {}) ∧
  (∀ g, g < c.nextGameId → GameInv c g) ∧
  (∀ r, c.requestToGame r ≠ 0 →
      c.requestToGame r - 1 < c.nextGameId ∧
      (c.games (c.requestToGame r - 1)).state = .Revealing ∧
      (c.games (c.requestToGame r - 1)).revealRequestId = r) ∧
  (∀ g p, (c.playerStates g p).moveSubmitted = true → (c.playerStates g p).joined = true) ∧
  (∀ g1 g2, g1 < c.nextGameId → g2 < c.nextGameId →
      (c.games g1).revealRequestId ≠ 0 →
      (c.games g1).revealRequestId = (c.games g2).revealRequestId → g1 = g2)

/-- Number of distinct move values present among the revealed moves
(matching the distinctMoves counter of `_determineWinningMove`). -/
def distinctCount (ms : List Nat) : Nat :=
  (if 1 ∈ ms then 1 else 0) + (if 2 ∈ ms then 1 else 0) + (if 3 ∈ ms then 1 else 0)

/-! Concrete two-player scenario used by witnesses: host 11 creates a
2-player game, 12 joins, the host starts, both submit (the second submission
triggers the reveal request with identifier 7), then the oracle (address 99)
delivers cleartexts decoding to moves 1 (Rock) and 2 (Paper). -/
def demoBytes : List Nat :=
  (List.replicate 31 0 ++ [1]) ++ (List.replicate 31 0 ++ [2])

/-- A payload whose first slot decodes to the out-of-range value 5. -/
def demoBadBytes : List Nat :=
  (List.replicate 31 0 ++ [5]) ++ (List.replicate 31 0 ++ [2])

def demoOpsFull : List Op := [.create 11 2, .join 12 0]

def demoOpsMid : List Op := demoOpsFull ++ [.start 11 0, .submit 11 0 101 6 true]

def demoOpsPre : List Op := demoOpsMid ++ [.submit 12 0 102 7 true]

/-- Full game, state Ready. -/
def demoFull : Contract := runOps (initContract 99) demoOpsFull

/-- Started game in which player 11 has already submitted. -/
def demoMid : Contract := runOps (initContract 99) demoOpsMid

/-- Game in Revealing state, reveal request 7 outstanding. -/
def demoPre : Contract := runOps (initContract 99) demoOpsPre

def demoCallback : Op := .callback 99 7 demoBytes true

/-- Game 0 revealed: moves [1, 2], winner 12. -/
def demoPost : Contract := (applyOp demoPre demoCallback).1

def demoPostEvents : List Event := (applyOp demoPre demoCallback).2

@[simp] theorem bumpNext_nextGameId (c : Contract) :
    c.bumpNext.nextGameId = c.nextGameId + 1 := rfl

@[simp] theorem bumpNext_games (c : Contract) : c.bumpNext.games = c.games := rfl

@[simp] theorem bumpNext_oracle (c : Contract) :
    c.bumpNext.decryptionOracle = c.decryptionOracle := rfl

@[simp] theorem bumpNext_playerStates (c : Contract) :
    c.bumpNext.playerStates = c.playerStates := rfl

@[simp] theorem bumpNext_requestToGame (c : Contract) :
    c.bumpNext.requestToGame = c.requestToGame := rfl

@[simp] theorem setGame_games (c : Contract) (gid : Nat) (g : Game) (i : Nat) :
    (c.setGame gid g).games i = if i = gid then g else c.games i := rfl

@[simp] theorem setGame_nextGameId (c : Contract) (gid : Nat) (g : Game) :
    (c.setGame gid g).nextGameId = c.nextGameId := rfl

@[simp] theorem setGame_oracle (c : Contract) (gid : Nat) (g : Game) :
    (c.setGame gid g).decryptionOracle = c.decryptionOracle := rfl

@[simp] theorem setGame_playerStates (c : Contract) (gid : Nat) (g : Game) :
    (c.setGame gid g).playerStates = c.playerStates := rfl

@[simp] theorem setGame_requestToGame (c : Contract) (gid : Nat) (g : Game) :
    (c.setGame gid g).requestToGame = c.requestToGame := rfl

@[simp] theorem setPlayer_playerStates (c : Contract) (gid p : Nat) (st : PlayerState)
    (i q : Nat) :
    (c.setPlayer gid p st).playerStates i q =
      if i = gid ∧ q = p then st else c.playerStates i q := rfl

@[simp] theorem setPlayer_games (c : Contract) (gid p : Nat) (st : PlayerState) :
    (c.setPlayer gid p st).games = c.games := rfl

@[simp] theorem setPlayer_nextGameId (c : Contract) (gid p : Nat) (st : PlayerState) :
    (c.setPlayer gid p st).nextGameId = c.nextGameId := rfl

@[simp] theorem setPlayer_oracle (c : Contract) (gid p : Nat) (st : PlayerState) :
    (c.setPlayer gid p st).decryptionOracle = c.decryptionOracle := rfl

@[simp] theorem setPlayer_requestToGame (c : Contract) (gid p : Nat) (st : PlayerState) :
    (c.setPlayer gid p st).requestToGame = c.requestToGame := rfl

@[simp] theorem setRequest_requestToGame (c : Contract) (r v : Nat) (i : Nat) :
    (c.setRequest r v).requestToGame i = if i = r then v else c.requestToGame i := rfl

@[simp] theorem setRequest_games (c : Contract) (r v : Nat) :
    (c.setRequest r v).games = c.games := rfl

@[simp] theorem setRequest_nextGameId (c : Contract) (r v : Nat) :
    (c.setRequest r v).nextGameId = c.nextGameId := rfl

@[simp] theorem setRequest_oracle (c : Contract) (r v : Nat) :
    (c.setRequest r v).decryptionOracle = c.decryptionOracle := rfl

@[simp] theorem setRequest_playerStates (c : Contract) (r v : Nat) :
    (c.setRequest r v).playerStates = c.playerStates := rfl

theorem createGame_ok {c : Contract} {s m gid : Nat} {c' : Contract} {evs : List Event}
    (h : createGame c s m = .ok (gid, c', evs)) :
    2 ≤ m ∧ m ≤ 4 ∧ gid = c.nextGameId ∧
    evs = [.GameCreated c.nextGameId s m, .PlayerJoined c.nextGameId s] ∧
    c' = (c.bumpNext.setGame c.nextGameId (createdGame c s m)).setPlayer c.nextGameId s
            { c.playerStates c.nextGameId s with joined := true } := by
  simp only [createGame] at h
  split at h
  · exact Except.noConfusion h
  · next hcond =>
      push_neg at hcond
      simp only [Except.ok.injEq, Prod.mk.injEq] at h
      obtain ⟨h1, h2, h3⟩ := h
      exact ⟨hcond.1, hcond.2, h1.symm, h3.symm, h2.symm⟩

theorem joinGame_ok {c : Contract} {s gid : Nat} {c' : Contract} {evs : List Event}
    (h : joinGame c s gid = .ok (c', evs)) :
    (c.games gid).host ≠ 0 ∧ (c.games gid).state = .Open ∧
    (c.playerStates gid s).joined = false ∧
    (c.games gid).players.length < (c.games gid).maxPlayers ∧
    c' = (c.setGame gid (joinedGame c s gid)).setPlayer gid s
            { c.playerStates gid s with joined := true } ∧
    evs = (if (c.games gid).players.length + 1 = (c.games gid).maxPlayers
           then [.PlayerJoined gid s, .GameReady gid] else [.PlayerJoined gid s]) := by
  simp only [joinGame] at h
  split at h
  · exact Except.noConfusion h
  split at h
  · exact Except.noConfusion h
  split at h
  · exact Except.noConfusion h
  split at h
  · exact Except.noConfusion h
  next hhost hopen hjoined hfull =>
  rw [Bool.not_eq_true] at hjoined
  push_neg at hfull
  simp only [ne_eq, not_not] at hopen
  split at h
  · next hlast =>
      simp only [List.length_append, List.length_singleton] at hlast
      simp only [Except.ok.injEq, Prod.mk.injEq] at h
      obtain ⟨h1, h2⟩ := h
      refine ⟨hhost, hopen, hjoined, hfull, ?_, ?_⟩
      · rw [← h1]; simp only [joinedGame, if_pos hlast]
      · rw [← h2]; simp only [if_pos hlast]
  · next hlast =>
      simp only [List.length_append, List.length_singleton] at hlast
      simp only [Except.ok.injEq, Prod.mk.injEq] at h
      obtain ⟨h1, h2⟩ := h
      refine ⟨hhost, hopen, hjoined, hfull, ?_, ?_⟩
      · rw [← h1]; simp only [joinedGame, if_neg hlast, hopen]
      · rw [← h2]; simp only [if_neg hlast]

theorem startGame_ok {c : Contract} {s gid : Nat} {c' : Contract} {evs : List Event}
    (h : startGame c s gid = .ok (c', evs)) :
    (c.games gid).host ≠ 0 ∧ s = (c.games gid).host ∧ (c.games gid).state = .Ready ∧
    c' = c.setGame gid { c.games gid with state := .Started } ∧
    evs = [.GameStarted gid s] := by
  simp only [startGame] at h
  split at h
  · exact Except.noConfusion h
  split at h
  · exact Except.noConfusion h
  split at h
  · exact Except.noConfusion h
  next hhost hauth hready =>
  simp only [ne_eq, not_not] at hauth hready
  simp only [Except.ok.injEq, Prod.mk.injEq] at h
  exact ⟨hhost, hauth, hready, h.1.symm, h.2.symm⟩

theorem submitMove_ok {c : Contract} {s gid eh r : Nat} {pf : Bool} {c' : Contract}
    {evs : List Event} (h : submitMove c s gid eh r pf = .ok (c', evs)) :
    (c.games gid).host ≠ 0 ∧ (c.games gid).state = .Started ∧
    (c.playerStates gid s).joined = true ∧ (c.playerStates gid s).moveSubmitted = false ∧
    pf = true ∧
    (if (c.games gid).movesSubmitted + 1 = (c.games gid).maxPlayers then
       c' = (finalizeSubmissions (submittedContract c s gid eh) gid r).1 ∧
       evs = [.MoveSubmitted gid s, .RevealRequested gid r]
     else c' = submittedContract c s gid eh ∧ evs = [.MoveSubmitted gid s]) := by
  simp only [submitMove] at h
  split at h
  · exact Except.noConfusion h
  split at h
  · exact Except.noConfusion h
  split at h
  · exact Except.noConfusion h
  split at h
  · exact Except.noConfusion h
  split at h
  · exact Except.noConfusion h
  next hhost hstarted hjoined hsub hpf =>
  simp only [ne_eq, not_not] at hstarted
  rw [Bool.not_eq_false] at hjoined hpf
  rw [Bool.not_eq_true] at hsub
  refine ⟨hhost, hstarted, hjoined, hsub, hpf, ?_⟩
  split at h
  · next hlast =>
      rw [if_pos hlast]
      simp only [finalizeSubmissions, Except.ok.injEq, Prod.mk.injEq] at h ⊢
      obtain ⟨h1, h2⟩ := h
      exact ⟨h1.symm, h2.symm⟩
  · next hlast =>
      rw [if_neg hlast]
      simp only [Except.ok.injEq, Prod.mk.injEq] at h
      exact ⟨h.1.symm, h.2.symm⟩

theorem handleDecryptionResult_ok {c : Contract} {s r : Nat} {bs : List Nat} {pf : Bool}
    {c' : Contract} {evs : List Event}
    (h : handleDecryptionResult c s r bs pf = .ok (c', evs)) :
    s = c.decryptionOracle ∧ c.requestToGame r ≠ 0 ∧
    (c.games (c.requestToGame r - 1)).host ≠ 0 ∧
    (c.games (c.requestToGame r - 1)).revealRequestId = r ∧
    (c.games (c.requestToGame r - 1)).state = .Revealing ∧
    pf = true ∧
    bs.length = (c.games (c.requestToGame r - 1)).players.length * 32 ∧
    ∃ c1 revealed,
      revealLoop (c.requestToGame r - 1) bs
        (c.setGame (c.requestToGame r - 1)
          { c.games (c.requestToGame r - 1) with revealedMoves := [], winners := [] })
        (c.games (c.requestToGame r - 1)).players 0 [] = .ok (c1, revealed) ∧
      c' = (c1.setGame (c.requestToGame r - 1)
              { c1.games (c.requestToGame r - 1) with
                  revealedMoves := revealed,
                  winners := collectWinners (c.games (c.requestToGame r - 1)).players
                    revealed (winningOf revealed),
                  state := .Revealed }).setRequest r 0 ∧
      evs = [.GameRevealed (c.requestToGame r - 1)
               (collectWinners (c.games (c.requestToGame r - 1)).players revealed
                 (winningOf revealed))
               (winningOf revealed)] := by
  simp only [handleDecryptionResult] at h
  split at h
  · exact Except.noConfusion h
  split at h
  · exact Except.noConfusion h
  split at h
  · exact Except.noConfusion h
  split at h
  · exact Except.noConfusion h
  split at h
  · exact Except.noConfusion h
  split at h
  · exact Except.noConfusion h
  split at h
  · exact Except.noConfusion h
  next hsender henc hhost hreq hstate hpf hlen =>
  simp only [ne_eq, not_not] at hsender hreq hstate hlen
  rw [Bool.not_eq_false] at hpf
  split at h
  · exact Except.noConfusion h
  next c1 revealed hloop =>
  simp only [Except.ok.injEq, Prod.mk.injEq] at h
  exact ⟨hsender, henc, hhost, hreq, hstate, hpf, hlen,
    c1, revealed, hloop, h.1.symm, h.2.symm⟩

/-- The decode loop only touches player states of the handled game; all
other storage, and in particular the joined / moveSubmitted bits of every
player state, is left intact. -/
theorem revealLoop_ok_frame {gid : Nat} {bs : List Nat} {ps : List Nat} :
    ∀ {c : Contract} {i : Nat} {rev : List Nat} {c1 : Contract} {out : List Nat},
    revealLoop gid bs c ps i rev = .ok (c1, out) →
      c1.nextGameId = c.nextGameId ∧ c1.decryptionOracle = c.decryptionOracle ∧
      c1.games = c.games ∧ c1.requestToGame = c.requestToGame ∧
      ∀ g p, ((c1.playerStates g p).joined = (c.playerStates g p).joined ∧
              (c1.playerStates g p).moveSubmitted = (c.playerStates g p).moveSubmitted) ∧
             (g ≠ gid → c1.playerStates g p = c.playerStates g p) := by
  induction ps with
  | nil =>
      intro c i rev c1 out h
      simp only [revealLoop, Except.ok.injEq, Prod.mk.injEq] at h
      obtain ⟨h1, _⟩ := h
      subst h1
      exact ⟨rfl, rfl, rfl, rfl, fun g p => ⟨⟨rfl, rfl⟩, fun _ => rfl⟩⟩
  | cons p rest ih =>
      intro c i rev c1 out h
      rw [revealLoop] at h
      split at h
      · exact Except.noConfusion h
      · obtain ⟨ha, hb, hc, hd, he⟩ := ih h
        refine ⟨ha, hb, hc, hd, fun g q => ?_⟩
        obtain ⟨⟨he1, he2⟩, he3⟩ := he g q
        by_cases hg : g = gid
        · subst hg
          by_cases hq : q = p
          · subst hq
            refine ⟨⟨?_, ?_⟩, fun hgg => absurd rfl hgg⟩
            · rw [he1]; simp
            · rw [he2]; simp
          · refine ⟨⟨?_, ?_⟩, fun hgg => absurd rfl hgg⟩
            · rw [he1]; simp [hq]
            · rw [he2]; simp [hq]
        · refine ⟨⟨?_, ?_⟩, fun _ => ?_⟩
          · rw [he1]; simp [hg]
          · rw [he2]; simp [hg]
          · rw [he3 hg]; simp [hg]

/-- If slot `j` is the first slot decoding outside 1..3, the decode loop
aborts with exactly that value. -/
theorem revealLoop_first_bad {gid : Nat} {bs : List Nat} {ps : List Nat} :
    ∀ {c : Contract} {i : Nat} {rev : List Nat} {j : Nat},
    j < ps.length →
    (decodedMove bs (i + j) < 1 ∨ decodedMove bs (i + j) > 3) →
    (∀ k < j, 1 ≤ decodedMove bs (i + k) ∧ decodedMove bs (i + k) ≤ 3) →
    revealLoop gid bs c ps i rev = .error (.InvalidMoveValue (decodedMove bs (i + j))) := by
  induction ps with
  | nil => intro c i rev j hj; exact absurd hj (by simp)
  | cons p rest ih =>
      intro c i rev j hj hbad hgood
      rw [revealLoop]
      rcases Nat.eq_zero_or_pos j with hj0 | hjpos
      · subst hj0
        rw [if_pos]
        · simp
        · simpa using hbad
      · have hgi : 1 ≤ decodedMove bs i ∧ decodedMove bs i ≤ 3 := by
          have := hgood 0 hjpos
          simpa using this
        rw [if_neg (by omega)]
        have hj' : j - 1 < rest.length := by
          simp only [List.length_cons] at hj; omega
        have hbad' : decodedMove bs (i + 1 + (j - 1)) < 1 ∨
            decodedMove bs (i + 1 + (j - 1)) > 3 := by
          have : i + 1 + (j - 1) = i + j := by omega
          rw [this]; exact hbad
        have hgood' : ∀ k < j - 1, 1 ≤ decodedMove bs (i + 1 + k) ∧
            decodedMove bs (i + 1 + k) ≤ 3 := by
          intro k hk
          have : i + 1 + k = i + (k + 1) := by omega
          rw [this]
          exact hgood (k + 1) (by omega)
        have heq : i + 1 + (j - 1) = i + j := by omega
        rw [← heq]
        exact ih hj' hbad' hgood'

theorem GameInv_congr {c c' : Contract} {g : Nat} (h : GameInv c g)
    (hg : c'.games g = c.games g)
    (hr : (c.games g).revealRequestId ≠ 0 →
      c'.requestToGame (c.games g).revealRequestId =
        c.requestToGame (c.games g).revealRequestId) : GameInv c' g := by
  obtain ⟨h1, h2, h3, h4, h5, h6, h7, h8, h9, h10⟩ := h
  refine ⟨?_, ?_, ?_, ?_, ?_, ?_, ?_, ?_, ?_, ?_⟩ <;> rw [hg]
  · exact h1
  · exact h2
  · exact h3
  · exact h4
  · exact h5
  · exact h6
  · exact h7
  · exact h8
  · intro hst
    obtain ⟨ha, hb, hcq⟩ := h9 hst
    exact ⟨ha, hb, by rw [hr hb]; exact hcq⟩
  · exact h10

theorem initInv (o : Nat) : Inv (initContract o) := by
  refine ⟨fun g _ => ⟨rfl, fun p => rfl⟩, ?_, ?_, ?_, ?_⟩
  · intro g hg; exact absurd hg (by simp [initContract])
  · intro r hr; exact absurd rfl hr
  · intro g p hsub; exact absurd hsub (by simp [initContract])
  · intro g1 g2 hg1 _ _ _; exact absurd hg1 (by simp [initContract])

theorem inv_create {c : Contract} {s m gid : Nat} {c' : Contract} {evs : List Event}
    (hc : Inv c) (hs : s ≠ 0) (h : createGame c s m = .ok (gid, c', evs)) : Inv c' := by
  obtain ⟨hm2, hm4, _, _, hc'⟩ := createGame_ok h
  obtain ⟨hfresh, hgames, hreq, hps, huniq⟩ := hc
  have hdef : c.games c.nextGameId = {} := (hfresh c.nextGameId le_rfl).1
  have hnext : c'.nextGameId = c.nextGameId + 1 := by rw [hc']; simp
  have hG : ∀ i, c'.games i =
      if i = c.nextGameId then createdGame c s m else c.games i := by
    intro i; rw [hc']; simp
  have hP : ∀ g p, c'.playerStates g p =
      if g = c.nextGameId ∧ p = s then { c.playerStates c.nextGameId s with joined := true }
      else c.playerStates g p := by
    intro g p; rw [hc']; simp
  have hR : c'.requestToGame = c.requestToGame := by rw [hc']; simp
  have hnewG : createdGame c s m =
      { host := s, maxPlayers := m, state := .Open, movesSubmitted := 0,
        revealRequestId := 0, players := [s], winners := [], revealedMoves := [] } := by
    simp [createdGame, hdef]
  refine ⟨?_, ?_, ?_, ?_, ?_⟩
  · intro g hg
    rw [hnext] at hg
    constructor
    · rw [hG, if_neg (by omega)]
      exact (hfresh g (by omega)).1
    · intro p
      rw [hP, if_neg (by rintro ⟨h1, -⟩; omega)]
      exact (hfresh g (by omega)).2 p
  · intro g hg
    rw [hnext] at hg
    by_cases hgi : g = c.nextGameId
    · subst hgi
      have hGg : c'.games c.nextGameId =
          { host := s, maxPlayers := m, state := .Open, movesSubmitted := 0,
            revealRequestId := 0, players := [s], winners := [], revealedMoves := [] } := by
        rw [hG, if_pos rfl, hnewG]
      refine ⟨?_, ?_, ?_, ?_, ?_, ?_, ?_, ?_, ?_, ?_⟩ <;> rw [hGg]
      · exact hs
      · exact hm2
      · exact hm4
      · show 1 ≤ m; omega
      · intro _; show 1 < m; omega
      · intro hno; exact absurd rfl hno
      · intro _; exact ⟨rfl, rfl⟩
      · intro hno; simp at hno
      · intro hno; simp at hno
      · intro hno; simp at hno
    · have hgle : g < c.nextGameId := by omega
      refine GameInv_congr (hgames g hgle) ?_ ?_
      · rw [hG, if_neg hgi]
      · intro _; rw [hR]
  · intro r hrne
    rw [hR] at hrne ⊢
    obtain ⟨ha, hb, hcp⟩ := hreq r hrne
    rw [hnext]
    refine ⟨by omega, ?_, ?_⟩ <;> rw [hG, if_neg (by omega)]
    · exact hb
    · exact hcp
  · intro g p hsub
    rw [hP] at hsub ⊢
    by_cases hgp : g = c.nextGameId ∧ p = s
    · rw [if_pos hgp] at hsub ⊢
    · rw [if_neg hgp] at hsub ⊢; exact hps g p hsub
  · intro g1 g2 hg1 hg2 hne heq
    rw [hnext] at hg1 hg2
    rw [hG g1] at hne
    rw [hG g1, hG g2] at heq
    by_cases h1 : g1 = c.nextGameId
    · rw [if_pos h1, hnewG] at hne; simp at hne
    · rw [if_neg h1] at hne
      rw [if_neg h1] at heq
      by_cases h2 : g2 = c.nextGameId
      · rw [if_pos h2, hnewG] at heq; simp at heq; exact absurd heq hne
      · rw [if_neg h2] at heq
        exact huniq g1 g2 (by omega) (by omega) hne heq

theorem inv_join {c : Contract} {s gid : Nat} {c' : Contract} {evs : List Event}
    (hc : Inv c) (h : joinGame c s gid = .ok (c', evs)) : Inv c' := by
  obtain ⟨hhost, hopen, hjoined, hfull, hc', _⟩ := joinGame_ok h
  obtain ⟨hfresh, hgames, hreq, hps, huniq⟩ := hc
  have hgidlt : gid < c.nextGameId := by
    by_contra hge
    have hd := (hfresh gid (by omega)).1
    rw [hd] at hhost
    exact hhost rfl
  have hnext : c'.nextGameId = c.nextGameId := by rw [hc']; simp
  have hG : ∀ i, c'.games i = if i = gid then joinedGame c s gid else c.games i := by
    intro i; rw [hc']; simp
  have hP : ∀ g p, c'.playerStates g p =
      if g = gid ∧ p = s then { c.playerStates gid s with joined := true }
      else c.playerStates g p := by
    intro g p; rw [hc']; simp
  have hR : c'.requestToGame = c.requestToGame := by rw [hc']; simp
  obtain ⟨_, hm2, hm4, hlen, hOlt, hNe, hOR, hSt, hRvg, hRvd⟩ := hgames gid hgidlt
  have hrr0 : (c.games gid).revealRequestId = 0 := (hOR (Or.inl hopen)).2
  refine ⟨?_, ?_, ?_, ?_, ?_⟩
  · intro g hg
    rw [hnext] at hg
    constructor
    · rw [hG, if_neg (by omega)]
      exact (hfresh g hg).1
    · intro p
      rw [hP, if_neg (by rintro ⟨h1, -⟩; omega)]
      exact (hfresh g hg).2 p
  · intro g hg
    rw [hnext] at hg
    by_cases hgi : g = gid
    · rw [hgi]
      have hJ : c'.games gid = joinedGame c s gid := by rw [hG, if_pos rfl]
      by_cases hlast : (c.games gid).players.length + 1 = (c.games gid).maxPlayers
      · have hJ2 : c'.games gid =
            { c.games gid with players := (c.games gid).players ++ [s],
                               state := GameState.Ready } := by
          rw [hJ, joinedGame, if_pos hlast]
        refine ⟨?_, ?_, ?_, ?_, ?_, ?_, ?_, ?_, ?_, ?_⟩ <;> rw [hJ2]
        · exact hhost
        · exact hm2
        · exact hm4
        · simp only [List.length_append, List.length_singleton]; omega
        · intro hno; simp at hno
        · intro _; simp only [List.length_append, List.length_singleton]; omega
        · intro _; exact ⟨(hOR (Or.inl hopen)).1, hrr0⟩
        · intro hno; simp at hno
        · intro hno; simp at hno
        · intro hno; simp at hno
      · have hJ2 : c'.games gid =
            { c.games gid with players := (c.games gid).players ++ [s],
                               state := GameState.Open } := by
          rw [hJ, joinedGame, if_neg hlast]
        refine ⟨?_, ?_, ?_, ?_, ?_, ?_, ?_, ?_, ?_, ?_⟩ <;> rw [hJ2]
        · exact hhost
        · exact hm2
        · exact hm4
        · simp only [List.length_append, List.length_singleton]; omega
        · intro _; simp only [List.length_append, List.length_singleton]; omega
        · intro hno; simp at hno
        · intro _; exact ⟨(hOR (Or.inl hopen)).1, hrr0⟩
        · intro hno; simp at hno
        · intro hno; simp at hno
        · intro hno; simp at hno
    · refine GameInv_congr (hgames g (by omega)) ?_ ?_
      · rw [hG, if_neg hgi]
      · intro _; rw [hR]
  · intro r hrne
    rw [hR] at hrne ⊢
    obtain ⟨ha, hb, hcp⟩ := hreq r hrne
    have htne : c.requestToGame r - 1 ≠ gid := by
      intro hteq
      rw [hteq, hopen] at hb
      exact GameState.noConfusion hb
    rw [hnext]
    refine ⟨ha, ?_, ?_⟩ <;> rw [hG, if_neg htne]
    · exact hb
    · exact hcp
  · intro g p hsub
    rw [hP] at hsub ⊢
    by_cases hgp : g = gid ∧ p = s
    · rw [if_pos hgp] at hsub ⊢
    · rw [if_neg hgp] at hsub ⊢; exact hps g p hsub
  · intro g1 g2 hg1 hg2 hne heq
    rw [hnext] at hg1 hg2
    rw [hG g1] at hne
    rw [hG g1, hG g2] at heq
    by_cases h1 : g1 = gid
    · rw [if_pos h1] at hne
      exact absurd hrr0 hne
    · rw [if_neg h1] at hne
      rw [if_neg h1] at heq
      by_cases h2 : g2 = gid
      · rw [if_pos h2] at heq
        have : (c.games g1).revealRequestId = 0 := heq.trans hrr0
        exact absurd this hne
      · rw [if_neg h2] at heq
        exact huniq g1 g2 hg1 hg2 hne heq

theorem inv_start {c : Contract} {s gid : Nat} {c' : Contract} {evs : List Event}
    (hc : Inv c) (h : startGame c s gid = .ok (c', evs)) : Inv c' := by
  obtain ⟨hhost, _, hready, hc', _⟩ := startGame_ok h
  obtain ⟨hfresh, hgames, hreq, hps, huniq⟩ := hc
  have hgidlt : gid < c.nextGameId := by
    by_contra hge
    have hd := (hfresh gid (by omega)).1
    rw [hd] at hhost
    exact hhost rfl
  have hnext : c'.nextGameId = c.nextGameId := by rw [hc']; simp
  have hG : ∀ i, c'.games i =
      if i = gid then { c.games gid with state := GameState.Started } else c.games i := by
    intro i; rw [hc']; simp
  have hP : c'.playerStates = c.playerStates := by rw [hc']; simp
  have hR : c'.requestToGame = c.requestToGame := by rw [hc']; simp
  obtain ⟨_, hm2, hm4, hlen, hOlt, hNe, hOR, hSt, hRvg, hRvd⟩ := hgames gid hgidlt
  have hrr0 : (c.games gid).revealRequestId = 0 := (hOR (Or.inr hready)).2
  refine ⟨?_, ?_, ?_, ?_, ?_⟩
  · intro g hg
    rw [hnext] at hg
    refine ⟨?_, fun p => ?_⟩
    · rw [hG, if_neg (by omega)]
      exact (hfresh g hg).1
    · rw [hP]
      exact (hfresh g hg).2 p
  · intro g hg
    rw [hnext] at hg
    by_cases hgi : g = gid
    · rw [hgi]
      have hJ : c'.games gid = { c.games gid with state := GameState.Started } := by
        rw [hG, if_pos rfl]
      refine ⟨?_, ?_, ?_, ?_, ?_, ?_, ?_, ?_, ?_, ?_⟩ <;> rw [hJ]
      · exact hhost
      · exact hm2
      · exact hm4
      · exact hlen
      · intro hno; simp at hno
      · intro _; exact hNe (by rw [hready]; simp)
      · intro hor; simp at hor
      · intro _
        refine ⟨?_, hrr0⟩
        show (c.games gid).movesSubmitted < (c.games gid).maxPlayers
        rw [(hOR (Or.inr hready)).1]; omega
      · intro hno; simp at hno
      · intro hno; simp at hno
    · refine GameInv_congr (hgames g (by omega)) ?_ ?_
      · rw [hG, if_neg hgi]
      · intro _; rw [hR]
  · intro r hrne
    rw [hR] at hrne ⊢
    obtain ⟨ha, hb, hcp⟩ := hreq r hrne
    have htne : c.requestToGame r - 1 ≠ gid := by
      intro hteq
      rw [hteq, hready] at hb
      exact GameState.noConfusion hb
    rw [hnext]
    refine ⟨ha, ?_, ?_⟩ <;> rw [hG, if_neg htne]
    · exact hb
    · exact hcp
  · intro g p hsub
    rw [hP] at hsub ⊢
    exact hps g p hsub
  · intro g1 g2 hg1 hg2 hne heq
    rw [hnext] at hg1 hg2
    rw [hG g1] at hne
    rw [hG g1, hG g2] at heq
    by_cases h1 : g1 = gid
    · rw [if_pos h1] at hne
      exact absurd hrr0 hne
    · rw [if_neg h1] at hne
      rw [if_neg h1] at heq
      by_cases h2 : g2 = gid
      · rw [if_pos h2] at heq
        have h0 : (c.games g1).revealRequestId = 0 := heq.trans hrr0
        exact absurd h0 hne
      · rw [if_neg h2] at heq
        exact huniq g1 g2 hg1 hg2 hne heq

theorem inv_submit {c : Contract} {s gid eh r : Nat} {pf : Bool} {c' : Contract}
    {evs : List Event} (hc : Inv c) (hr0 : r ≠ 0) (_hfree : c.requestToGame r = 0)
    (hfreerr : ∀ g < c.nextGameId, (c.games g).revealRequestId ≠ r)
    (h : submitMove c s gid eh r pf = .ok (c', evs)) : Inv c' := by
  obtain ⟨hhost, hstarted, hjoined, hsub, hpf, hmain⟩ := submitMove_ok h
  obtain ⟨hfresh, hgames, hreq, hps, huniq⟩ := hc
  have hgidlt : gid < c.nextGameId := by
    by_contra hge
    have hd := (hfresh gid (by omega)).1
    rw [hd] at hhost
    exact hhost rfl
  obtain ⟨_, hm2, hm4, hlen, hOlt, hNe, hOR, hSt, hRvg, hRvd⟩ := hgames gid hgidlt
  have hms := hSt hstarted
  by_cases hlast : (c.games gid).movesSubmitted + 1 = (c.games gid).maxPlayers
  case neg =>
    rw [if_neg hlast] at hmain
    obtain ⟨hc', hevs⟩ := hmain
    have hnext : c'.nextGameId = c.nextGameId := by rw [hc']; simp [submittedContract]
    have hG : ∀ i, c'.games i =
        if i = gid
        then { c.games gid with movesSubmitted := (c.games gid).movesSubmitted + 1 }
        else c.games i := by
      intro i; rw [hc']; simp [submittedContract]
    have hP : ∀ g p, c'.playerStates g p =
        if g = gid ∧ p = s
        then { c.playerStates gid s with encryptedMove := eh, moveSubmitted := true }
        else c.playerStates g p := by
      intro g p; rw [hc']; simp [submittedContract]
    have hR : c'.requestToGame = c.requestToGame := by rw [hc']; simp [submittedContract]
    have hJ : c'.games gid =
        { c.games gid with movesSubmitted := (c.games gid).movesSubmitted + 1 } := by
      rw [hG, if_pos rfl]
    have hho' : (c'.games gid).host = (c.games gid).host := by rw [hJ]
    have hmx' : (c'.games gid).maxPlayers = (c.games gid).maxPlayers := by rw [hJ]
    have hpl' : (c'.games gid).players = (c.games gid).players := by rw [hJ]
    have hst' : (c'.games gid).state = (c.games gid).state := by rw [hJ]
    have hms' : (c'.games gid).movesSubmitted = (c.games gid).movesSubmitted + 1 := by rw [hJ]
    have hrr' : (c'.games gid).revealRequestId = (c.games gid).revealRequestId := by rw [hJ]
    have hRR : ∀ g, (c'.games g).revealRequestId = (c.games g).revealRequestId := by
      intro g
      by_cases hgi : g = gid
      · rw [hgi]; exact hrr'
      · rw [hG, if_neg hgi]
    refine ⟨?_, ?_, ?_, ?_, ?_⟩
    · intro g hg
      rw [hnext] at hg
      refine ⟨?_, fun p => ?_⟩
      · rw [hG, if_neg (by omega)]
        exact (hfresh g hg).1
      · rw [hP, if_neg (by rintro ⟨h1, -⟩; omega)]
        exact (hfresh g hg).2 p
    · intro g hg
      rw [hnext] at hg
      by_cases hgi : g = gid
      · rw [hgi]
        refine ⟨?_, ?_, ?_, ?_, ?_, ?_, ?_, ?_, ?_, ?_⟩
        · rw [hho']; exact hhost
        · rw [hmx']; exact hm2
        · rw [hmx']; exact hm4
        · rw [hpl', hmx']; exact hlen
        · intro hno; rw [hst', hstarted] at hno; exact GameState.noConfusion hno
        · intro _; rw [hpl', hmx']; exact hNe (by rw [hstarted]; simp)
        · intro hor; rw [hst', hstarted] at hor; simp at hor
        · intro _
          rw [hms', hmx', hrr']
          exact ⟨by omega, hms.2⟩
        · intro hno; rw [hst', hstarted] at hno; exact GameState.noConfusion hno
        · intro hno; rw [hst', hstarted] at hno; exact GameState.noConfusion hno
      · refine GameInv_congr (hgames g (by omega)) ?_ ?_
        · rw [hG, if_neg hgi]
        · intro _; rw [hR]
    · intro r2 hrne
      rw [hR] at hrne ⊢
      obtain ⟨ha, hb, hcp⟩ := hreq r2 hrne
      have htne : c.requestToGame r2 - 1 ≠ gid := by
        intro hteq
        rw [hteq, hstarted] at hb
        exact GameState.noConfusion hb
      rw [hnext]
      refine ⟨ha, ?_, ?_⟩ <;> rw [hG, if_neg htne]
      · exact hb
      · exact hcp
    · intro g p hsub2
      rw [hP] at hsub2 ⊢
      by_cases hgp : g = gid ∧ p = s
      · rw [if_pos hgp] at hsub2 ⊢
        exact hjoined
      · rw [if_neg hgp] at hsub2 ⊢
        exact hps g p hsub2
    · intro g1 g2 hg1 hg2 hne heq
      rw [hnext] at hg1 hg2
      rw [hRR] at hne heq
      rw [hRR] at heq
      exact huniq g1 g2 hg1 hg2 hne heq
  case pos =>
    rw [if_pos hlast] at hmain
    obtain ⟨hc', hevs⟩ := hmain
    have hnext : c'.nextGameId = c.nextGameId := by
      rw [hc']; simp [finalizeSubmissions, submittedContract]
    have hG : ∀ i, c'.games i =
        if i = gid
        then { c.games gid with movesSubmitted := (c.games gid).movesSubmitted + 1,
                                state := GameState.Revealing, revealRequestId := r }
        else c.games i := by
      intro i
      rw [hc']
      simp only [finalizeSubmissions, setRequest_games, setGame_games, setPlayer_games]
      by_cases hig : i = gid
      · rw [if_pos hig, if_pos hig]
        simp [submittedContract]
      · rw [if_neg hig, if_neg hig]
        simp [submittedContract, hig]
    have hP : ∀ g p, c'.playerStates g p =
        if g = gid ∧ p = s
        then { c.playerStates gid s with encryptedMove := eh, moveSubmitted := true }
        else c.playerStates g p := by
      intro g p; rw [hc']; simp [finalizeSubmissions, submittedContract]
    have hR : ∀ i, c'.requestToGame i = if i = r then gid + 1 else c.requestToGame i := by
      intro i; rw [hc']; simp [finalizeSubmissions, submittedContract]
    have hJ : c'.games gid =
        { c.games gid with movesSubmitted := (c.games gid).movesSubmitted + 1,
                           state := GameState.Revealing, revealRequestId := r } := by
      rw [hG, if_pos rfl]
    have hho' : (c'.games gid).host = (c.games gid).host := by rw [hJ]
    have hmx' : (c'.games gid).maxPlayers = (c.games gid).maxPlayers := by rw [hJ]
    have hpl' : (c'.games gid).players = (c.games gid).players := by rw [hJ]
    have hst' : (c'.games gid).state = GameState.Revealing := by rw [hJ]
    have hms' : (c'.games gid).movesSubmitted = (c.games gid).movesSubmitted + 1 := by rw [hJ]
    have hrr' : (c'.games gid).revealRequestId = r := by rw [hJ]
    refine ⟨?_, ?_, ?_, ?_, ?_⟩
    · intro g hg
      rw [hnext] at hg
      refine ⟨?_, fun p => ?_⟩
      · rw [hG, if_neg (by omega)]
        exact (hfresh g hg).1
      · rw [hP, if_neg (by rintro ⟨h1, -⟩; omega)]
        exact (hfresh g hg).2 p
    · intro g hg
      rw [hnext] at hg
      by_cases hgi : g = gid
      · rw [hgi]
        refine ⟨?_, ?_, ?_, ?_, ?_, ?_, ?_, ?_, ?_, ?_⟩
        · rw [hho']; exact hhost
        · rw [hmx']; exact hm2
        · rw [hmx']; exact hm4
        · rw [hpl', hmx']; exact hlen
        · intro hno; rw [hst'] at hno; exact GameState.noConfusion hno
        · intro _; rw [hpl', hmx']; exact hNe (by rw [hstarted]; simp)
        · intro hor; rw [hst'] at hor; simp at hor
        · intro hno; rw [hst'] at hno; exact GameState.noConfusion hno
        · intro _
          refine ⟨?_, ?_, ?_⟩
          · rw [hms', hmx']; omega
          · rw [hrr']; exact hr0
          · rw [hrr', hR, if_pos rfl]
        · intro hno; rw [hst'] at hno; exact GameState.noConfusion hno
      · refine GameInv_congr (hgames g (by omega)) ?_ ?_
        · rw [hG, if_neg hgi]
        · intro hgne
          rw [hR, if_neg (hfreerr g (by omega))]
    · intro r2 hrne
      rw [hR] at hrne ⊢
      by_cases hir : r2 = r
      · rw [if_pos hir] at hrne ⊢
        have hsimp : gid + 1 - 1 = gid := by omega
        rw [hsimp, hnext]
        refine ⟨hgidlt, ?_, ?_⟩
        · rw [hG, if_pos rfl]
        · rw [hG, if_pos rfl]; rw [hir]
      · rw [if_neg hir] at hrne ⊢
        obtain ⟨ha, hb, hcp⟩ := hreq r2 hrne
        have htne : c.requestToGame r2 - 1 ≠ gid := by
          intro hteq
          rw [hteq, hstarted] at hb
          exact GameState.noConfusion hb
        rw [hnext]
        refine ⟨ha, ?_, ?_⟩ <;> rw [hG, if_neg htne]
        · exact hb
        · exact hcp
    · intro g p hsub2
      rw [hP] at hsub2 ⊢
      by_cases hgp : g = gid ∧ p = s
      · rw [if_pos hgp] at hsub2 ⊢
        exact hjoined
      · rw [if_neg hgp] at hsub2 ⊢
        exact hps g p hsub2
    · intro g1 g2 hg1 hg2 hne heq
      rw [hnext] at hg1 hg2
      rw [hG g1] at hne
      rw [hG g1, hG g2] at heq
      by_cases h1 : g1 = gid
      · rw [if_pos h1] at hne heq
        by_cases h2 : g2 = gid
        · rw [h1, h2]
        · rw [if_neg h2] at heq
          simp only [] at heq
          exact absurd heq.symm (hfreerr g2 (by omega))
      · rw [if_neg h1] at hne heq
        by_cases h2 : g2 = gid
        · rw [if_pos h2] at heq
          simp only [] at heq
          exact absurd heq (hfreerr g1 (by omega))
        · rw [if_neg h2] at heq
          exact huniq g1 g2 hg1 hg2 hne heq

theorem inv_handle {c : Contract} {s r : Nat} {bs : List Nat} {pf : Bool} {c' : Contract}
    {evs : List Event} (hc : Inv c)
    (h : handleDecryptionResult c s r bs pf = .ok (c', evs)) : Inv c' := by
  obtain ⟨hsender, henc, hhost, hreqid, hstate, hpf, hlen, c1, revealed, hloop, hc', hevs⟩ :=
    handleDecryptionResult_ok h
  obtain ⟨hfresh, hgames, hreq, hps, huniq⟩ := hc
  obtain ⟨hTlt, _, _⟩ := hreq r henc
  obtain ⟨_, hm2, hm4, hlen2, hOlt, hNe, hOR, hSt, hRvg, hRvd⟩ :=
    hgames (c.requestToGame r - 1) hTlt
  obtain ⟨hmseq, hrrne, _⟩ := hRvg hstate
  have hrne : r ≠ 0 := by rw [← hreqid]; exact hrrne
  obtain ⟨hf1, hf2, hf3, hf4, hf5⟩ := revealLoop_ok_frame hloop
  have hc1T : c1.games (c.requestToGame r - 1) =
      { c.games (c.requestToGame r - 1) with revealedMoves := [], winners := [] } := by
    rw [hf3]; simp
  have hc1G : ∀ i, i ≠ c.requestToGame r - 1 → c1.games i = c.games i := by
    intro i hi; rw [hf3]; simp [hi]
  have hnext : c'.nextGameId = c.nextGameId := by
    rw [hc']; simp only [setRequest_nextGameId, setGame_nextGameId]
    rw [hf1]; simp
  have hG : ∀ i, c'.games i =
      if i = c.requestToGame r - 1
      then { c.games (c.requestToGame r - 1) with
               revealedMoves := revealed,
               winners := collectWinners (c.games (c.requestToGame r - 1)).players revealed
                 (winningOf revealed),
               state := GameState.Revealed }
      else c.games i := by
    intro i
    rw [hc']
    simp only [setRequest_games, setGame_games]
    by_cases hig : i = c.requestToGame r - 1
    · rw [if_pos hig, if_pos hig, hc1T]
    · rw [if_neg hig, if_neg hig]
      exact hc1G i hig
  have hP : ∀ g p, c'.playerStates g p = c1.playerStates g p := by
    intro g p; rw [hc']; rfl
  have hPbits : ∀ g p,
      (c'.playerStates g p).joined = (c.playerStates g p).joined ∧
      (c'.playerStates g p).moveSubmitted = (c.playerStates g p).moveSubmitted := by
    intro g p
    rw [hP]
    obtain ⟨⟨hb1, hb2⟩, _⟩ := hf5 g p
    constructor
    · rw [hb1]; rfl
    · rw [hb2]; rfl
  have hR : ∀ i, c'.requestToGame i = if i = r then 0 else c.requestToGame i := by
    intro i
    rw [hc']
    simp only [setRequest_requestToGame, setGame_requestToGame]
    rw [hf4]
    simp
  have hT : c'.games (c.requestToGame r - 1) =
      { c.games (c.requestToGame r - 1) with
          revealedMoves := revealed,
          winners := collectWinners (c.games (c.requestToGame r - 1)).players revealed
            (winningOf revealed),
          state := GameState.Revealed } := by
    rw [hG, if_pos rfl]
  have hho' : (c'.games (c.requestToGame r - 1)).host =
      (c.games (c.requestToGame r - 1)).host := by rw [hT]
  have hmx' : (c'.games (c.requestToGame r - 1)).maxPlayers =
      (c.games (c.requestToGame r - 1)).maxPlayers := by rw [hT]
  have hpl' : (c'.games (c.requestToGame r - 1)).players =
      (c.games (c.requestToGame r - 1)).players := by rw [hT]
  have hst' : (c'.games (c.requestToGame r - 1)).state = GameState.Revealed := by rw [hT]
  have hms' : (c'.games (c.requestToGame r - 1)).movesSubmitted =
      (c.games (c.requestToGame r - 1)).movesSubmitted := by rw [hT]
  have hrr' : (c'.games (c.requestToGame r - 1)).revealRequestId =
      (c.games (c.requestToGame r - 1)).revealRequestId := by rw [hT]
  have hRR : ∀ g, (c'.games g).revealRequestId = (c.games g).revealRequestId := by
    intro g
    by_cases hgi : g = c.requestToGame r - 1
    · rw [hgi]; exact hrr'
    · rw [hG, if_neg hgi]
  refine ⟨?_, ?_, ?_, ?_, ?_⟩
  · intro g hg
    rw [hnext] at hg
    have hgne : g ≠ c.requestToGame r - 1 := by omega
    refine ⟨?_, fun p => ?_⟩
    · rw [hG, if_neg hgne]
      exact (hfresh g hg).1
    · rw [hP]
      rw [(hf5 g p).2 hgne]
      exact (hfresh g hg).2 p
  · intro g hg
    rw [hnext] at hg
    by_cases hgi : g = c.requestToGame r - 1
    · rw [hgi]
      refine ⟨?_, ?_, ?_, ?_, ?_, ?_, ?_, ?_, ?_, ?_⟩
      · rw [hho']; exact hhost
      · rw [hmx']; exact hm2
      · rw [hmx']; exact hm4
      · rw [hpl', hmx']; exact hlen2
      · intro hno; rw [hst'] at hno; exact GameState.noConfusion hno
      · intro _; rw [hpl', hmx']; exact hNe (by rw [hstate]; simp)
      · intro hor; rw [hst'] at hor; simp at hor
      · intro hno; rw [hst'] at hno; exact GameState.noConfusion hno
      · intro hno; rw [hst'] at hno; exact GameState.noConfusion hno
      · intro _
        rw [hms', hmx', hrr', hreqid]
        exact ⟨hmseq, hrne⟩
    · refine GameInv_congr (hgames g (by omega)) ?_ ?_
      · rw [hG, if_neg hgi]
      · intro hgne
        have hne2 : (c.games g).revealRequestId ≠ r := by
          intro habs
          exact hgi (huniq g (c.requestToGame r - 1) (by omega) hTlt hgne
            (by rw [habs, hreqid]))
        rw [hR, if_neg hne2]
  · intro r2 hne2
    rw [hR] at hne2 ⊢
    by_cases hir : r2 = r
    · rw [if_pos hir] at hne2
      exact absurd rfl hne2
    · rw [if_neg hir] at hne2 ⊢
      obtain ⟨ha, hb, hcp⟩ := hreq r2 hne2
      have htne : c.requestToGame r2 - 1 ≠ c.requestToGame r - 1 := by
        intro hteq
        rw [hteq, hreqid] at hcp
        exact hir hcp.symm
      rw [hnext]
      refine ⟨ha, ?_, ?_⟩ <;> rw [hG, if_neg htne]
      · exact hb
      · exact hcp
  · intro g p hsub2
    obtain ⟨hb1, hb2⟩ := hPbits g p
    rw [hb2] at hsub2
    rw [hb1]
    exact hps g p hsub2
  · intro g1 g2 hg1 hg2 hne heq
    rw [hnext] at hg1 hg2
    rw [hRR] at hne heq
    rw [hRR] at heq
    exact huniq g1 g2 hg1 hg2 hne heq

theorem applyOp_error {c : Contract} {op : Op} {e : RPSError}
    (h : execOp c op = .error e) : applyOp c op = (c, []) := by
  simp [applyOp, h]

theorem applyOp_ok {c : Contract} {op : Op} {res : Contract × List Event}
    (h : execOp c op = .ok res) : applyOp c op = res := by
  simp [applyOp, h]

/-- Every well-formed transaction preserves the storage invariant. -/
theorem inv_applyOp {c : Contract} {op : Op} (hc : Inv c) (hop : WFOp c op) :
    Inv (applyOp c op).1 := by
  cases op with
  | create s m =>
      cases hex : execOp c (.create s m) with
      | error e => rw [applyOp_error hex]; exact hc
      | ok res =>
          rw [applyOp_ok hex]
          simp only [execOp] at hex
          cases hcr : createGame c s m with
          | error e => rw [hcr] at hex; exact Except.noConfusion hex
          | ok trip =>
              obtain ⟨gid, c2, evs⟩ := trip
              rw [hcr] at hex
              simp only [Except.map] at hex
              injection hex with hx
              subst hx
              exact inv_create hc hop hcr
  | join s g =>
      cases hex : execOp c (.join s g) with
      | error e => rw [applyOp_error hex]; exact hc
      | ok res =>
          rw [applyOp_ok hex]
          simp only [execOp] at hex
          obtain ⟨c2, evs⟩ := res
          exact inv_join hc hex
  | start s g =>
      cases hex : execOp c (.start s g) with
      | error e => rw [applyOp_error hex]; exact hc
      | ok res =>
          rw [applyOp_ok hex]
          simp only [execOp] at hex
          obtain ⟨c2, evs⟩ := res
          exact inv_start hc hex
  | submit s g eh r pf =>
      cases hex : execOp c (.submit s g eh r pf) with
      | error e => rw [applyOp_error hex]; exact hc
      | ok res =>
          rw [applyOp_ok hex]
          simp only [execOp] at hex
          obtain ⟨c2, evs⟩ := res
          obtain ⟨_, hr0, hfree, hfrr⟩ := hop
          exact inv_submit hc hr0 hfree hfrr hex
  | callback s r bs pf =>
      cases hex : execOp c (.callback s r bs pf) with
      | error e => rw [applyOp_error hex]; exact hc
      | ok res =>
          rw [applyOp_ok hex]
          simp only [execOp] at hex
          obtain ⟨c2, evs⟩ := res
          exact inv_handle hc hex

/-- The storage invariant holds in every reachable state. -/
theorem inv_reachable {o : Nat} {c : Contract} (h : Reachable o c) : Inv c := by
  induction h with
  | init _ => exact initInv o
  | step op _ hwf ih => exact inv_applyOp ih hwf

theorem issuedN_le_one (c : Contract) (g : Nat) : issuedN c g ≤ 1 := by
  unfold issuedN; split <;> omega

theorem issuedN_congr {c c' : Contract} {g : Nat}
    (h : (c'.games g).state = (c.games g).state) : issuedN c' g = issuedN c g := by
  unfold issuedN; rw [h]

theorem countRR_append (g : Nat) (a b : List Event) :
    countRR g (a ++ b) = countRR g a + countRR g b := by
  simp [countRR, List.filter_append]

/-- Events of one transaction move the issued flag of game `g` by exactly
the number of reveal-request notifications for `g` it emits. -/
theorem issuedN_eq_zero {c : Contract} {g : Nat}
    (h : (c.games g).state = .Open ∨ (c.games g).state = .Ready ∨
      (c.games g).state = .Started) : issuedN c g = 0 := by
  unfold issuedN
  rcases h with h | h | h <;> rw [h] <;> simp

theorem issuedN_eq_one {c : Contract} {g : Nat}
    (h : (c.games g).state = .Revealing ∨ (c.games g).state = .Revealed) :
    issuedN c g = 1 := by
  unfold issuedN
  rcases h with h | h <;> rw [h] <;> simp

/-- Events of one transaction move the issued flag of game `g` by exactly
the number of reveal-request notifications for `g` it emits. -/
theorem step_countRR {c : Contract} (op : Op) (hc : Inv c) (g : Nat) :
    countRR g (applyOp c op).2 + issuedN c g = issuedN (applyOp c op).1 g := by
  obtain ⟨hfresh, hgames, hreq, hps, huniq⟩ := hc
  cases op with
  | create s m =>
      cases hex : execOp c (.create s m) with
      | error e => rw [applyOp_error hex]; simp [countRR]
      | ok res =>
          rw [applyOp_ok hex]
          simp only [execOp] at hex
          cases hcr : createGame c s m with
          | error e => rw [hcr] at hex; exact Except.noConfusion hex
          | ok trip =>
              obtain ⟨gid, c2, evs⟩ := trip
              rw [hcr] at hex
              simp only [Except.map] at hex
              injection hex with hx
              subst hx
              show countRR g evs + issuedN c g = issuedN c2 g
              obtain ⟨_, _, _, hevs, hc'⟩ := createGame_ok hcr
              have hz : countRR g evs = 0 := by rw [hevs]; simp [countRR]
              rw [hz]
              have hst2 : (c2.games g).state = (c.games g).state := by
                rw [hc']
                simp only [setPlayer_games, setGame_games, bumpNext_games]
                by_cases hgi : g = c.nextGameId
                · rw [if_pos hgi, hgi, createdGame, (hfresh c.nextGameId le_rfl).1]
                · rw [if_neg hgi]
              rw [Nat.zero_add]
              exact (issuedN_congr hst2).symm
  | join s gid =>
      cases hex : execOp c (.join s gid) with
      | error e => rw [applyOp_error hex]; simp [countRR]
      | ok res =>
          rw [applyOp_ok hex]
          simp only [execOp] at hex
          obtain ⟨c2, evs⟩ := res
          show countRR g evs + issuedN c g = issuedN c2 g
          obtain ⟨hhost, hopen, _, _, hc', hevs⟩ := joinGame_ok hex
          have hz : countRR g evs = 0 := by
            rw [hevs]; split <;> simp [countRR]
          rw [hz, Nat.zero_add]
          by_cases hgi : g = gid
          · subst hgi
            have h0 : issuedN c g = 0 := issuedN_eq_zero (Or.inl hopen)
            have h2 : (c2.games g).state = (joinedGame c s g).state := by
              rw [hc']; simp
            have h0' : issuedN c2 g = 0 := by
              unfold issuedN
              rw [h2, joinedGame]
              by_cases hl : (c.games g).players.length + 1 = (c.games g).maxPlayers
              · simp [hl]
              · simp [hl]
            rw [h0, h0']
          · refine (issuedN_congr ?_).symm
            rw [hc']
            simp only [setPlayer_games, setGame_games]
            rw [if_neg hgi]
  | start s gid =>
      cases hex : execOp c (.start s gid) with
      | error e => rw [applyOp_error hex]; simp [countRR]
      | ok res =>
          rw [applyOp_ok hex]
          simp only [execOp] at hex
          obtain ⟨c2, evs⟩ := res
          show countRR g evs + issuedN c g = issuedN c2 g
          obtain ⟨_, _, hready, hc', hevs⟩ := startGame_ok hex
          have hz : countRR g evs = 0 := by rw [hevs]; simp [countRR]
          rw [hz, Nat.zero_add]
          by_cases hgi : g = gid
          · subst hgi
            have h0 : issuedN c g = 0 := issuedN_eq_zero (Or.inr (Or.inl hready))
            have h2 : (c2.games g).state = GameState.Started := by
              rw [hc']; simp
            have h0' : issuedN c2 g = 0 := issuedN_eq_zero (Or.inr (Or.inr h2))
            rw [h0, h0']
          · refine (issuedN_congr ?_).symm
            rw [hc']
            simp only [setGame_games]
            rw [if_neg hgi]
  | submit s gid eh r pf =>
      cases hex : execOp c (.submit s gid eh r pf) with
      | error e => rw [applyOp_error hex]; simp [countRR]
      | ok res =>
          rw [applyOp_ok hex]
          simp only [execOp] at hex
          obtain ⟨c2, evs⟩ := res
          show countRR g evs + issuedN c g = issuedN c2 g
          obtain ⟨hhost, hstarted, _, _, _, hmain⟩ := submitMove_ok hex
          by_cases hlast : (c.games gid).movesSubmitted + 1 = (c.games gid).maxPlayers
          · rw [if_pos hlast] at hmain
            obtain ⟨hc', hevs⟩ := hmain
            by_cases hgi : g = gid
            · subst hgi
              have hone : countRR g evs = 1 := by rw [hevs]; simp [countRR]
              have h0 : issuedN c g = 0 := issuedN_eq_zero (Or.inr (Or.inr hstarted))
              have h2 : (c2.games g).state = GameState.Revealing := by
                rw [hc']
                simp [finalizeSubmissions]
              have h1' : issuedN c2 g = 1 := issuedN_eq_one (Or.inl h2)
              rw [hone, h0, h1']
            · have hz : countRR g evs = 0 := by
                rw [hevs]; simp [countRR, Ne.symm hgi]
              rw [hz, Nat.zero_add]
              refine (issuedN_congr ?_).symm
              rw [hc']
              simp only [finalizeSubmissions, setRequest_games, setGame_games]
              rw [if_neg hgi]
              rw [submittedContract]
              simp only [setPlayer_games, setGame_games]
              rw [if_neg hgi]
          · rw [if_neg hlast] at hmain
            obtain ⟨hc', hevs⟩ := hmain
            have hz : countRR g evs = 0 := by rw [hevs]; simp [countRR]
            rw [hz, Nat.zero_add]
            by_cases hgi : g = gid
            · subst hgi
              have h0 : issuedN c g = 0 := issuedN_eq_zero (Or.inr (Or.inr hstarted))
              have h2 : (c2.games g).state = (c.games g).state := by
                rw [hc', submittedContract]
                simp
              have h0' : issuedN c2 g = 0 :=
                issuedN_eq_zero (Or.inr (Or.inr (by rw [h2]; exact hstarted)))
              rw [h0, h0']
            · refine (issuedN_congr ?_).symm
              rw [hc', submittedContract]
              simp only [setPlayer_games, setGame_games]
              rw [if_neg hgi]
  | callback s r bs pf =>
      cases hex : execOp c (.callback s r bs pf) with
      | error e => rw [applyOp_error hex]; simp [countRR]
      | ok res =>
          rw [applyOp_ok hex]
          simp only [execOp] at hex
          obtain ⟨c2, evs⟩ := res
          show countRR g evs + issuedN c g = issuedN c2 g
          obtain ⟨_, _, _, _, hstate, _, _, c1, revealed, hloop, hc', hevs⟩ :=
            handleDecryptionResult_ok hex
          obtain ⟨_, _, hf3, _, _⟩ := revealLoop_ok_frame hloop
          have hz : countRR g evs = 0 := by rw [hevs]; simp [countRR]
          rw [hz, Nat.zero_add]
          by_cases hgi : g = c.requestToGame r - 1
          · rw [hgi]
            have h1 : issuedN c (c.requestToGame r - 1) = 1 := issuedN_eq_one (Or.inl hstate)
            have h2 : (c2.games (c.requestToGame r - 1)).state = GameState.Revealed := by
              rw [hc']
              simp
            have h1' : issuedN c2 (c.requestToGame r - 1) = 1 := issuedN_eq_one (Or.inr h2)
            rw [h1, h1']
          · refine (issuedN_congr ?_).symm
            rw [hc']
            simp only [setRequest_games, setGame_games]
            rw [if_neg hgi, hf3]
            simp only [setGame_games]
            rw [if_neg hgi]

theorem trace_countRR {c : Contract} {ops : List Op} (hc : Inv c) (hwf : WFTrace c ops)
    (g : Nat) :
    countRR g (traceEvents c ops) + issuedN c g = issuedN (runOps c ops) g := by
  induction ops generalizing c with
  | nil => simp [traceEvents, runOps, countRR]
  | cons op rest ih =>
      obtain ⟨hop, hrest⟩ := hwf
      rw [traceEvents, runOps, countRR_append]
      have h1 := step_countRR op hc g
      have h2 := ih (inv_applyOp hc hop) hrest
      omega

/-- A last-needed submission with all guards satisfied goes through and
emits the move-submitted and reveal-requested notifications. -/
theorem submitMove_fires {c : Contract} {s g eh r : Nat}
    (hhost : (c.games g).host ≠ 0) (hstate : (c.games g).state = .Started)
    (hj : (c.playerStates g s).joined = true)
    (hns : (c.playerStates g s).moveSubmitted = false)
    (hlast : (c.games g).movesSubmitted + 1 = (c.games g).maxPlayers) :
    submitMove c s g eh r true =
      .ok ((finalizeSubmissions (submittedContract c s g eh) g r).1,
           [.MoveSubmitted g s, .RevealRequested g r]) := by
  simp only [submitMove]
  rw [if_neg hhost, if_neg (by rw [hstate]; simp), if_neg (by rw [hj]; simp),
      if_neg (by rw [hns]; simp), if_neg (by simp)]
  split
  · rfl
  · next hcond => exact absurd hlast hcond

/-- A reveal-request notification for game `g` fires in a step exactly when
that step is a successful last-needed submission for `g`. -/
theorem step_RR_iff {c : Contract} {op : Op} {g r : Nat} :
    Event.RevealRequested g r ∈ (applyOp c op).2 ↔
      ∃ s eh pf, op = .submit s g eh r pf ∧
        (c.games g).host ≠ 0 ∧ (c.games g).state = .Started ∧
        (c.playerStates g s).joined = true ∧
        (c.playerStates g s).moveSubmitted = false ∧ pf = true ∧
        (c.games g).movesSubmitted + 1 = (c.games g).maxPlayers := by
  constructor
  · intro hmem
    cases op with
    | create s m =>
        cases hex : execOp c (.create s m) with
        | error e => rw [applyOp_error hex] at hmem; simp at hmem
        | ok res =>
            rw [applyOp_ok hex] at hmem
            simp only [execOp] at hex
            cases hcr : createGame c s m with
            | error e => rw [hcr] at hex; exact Except.noConfusion hex
            | ok trip =>
                obtain ⟨gid, c2, evs⟩ := trip
                rw [hcr] at hex
                simp only [Except.map] at hex
                injection hex with hx
                subst hx
                obtain ⟨_, _, _, hevs, _⟩ := createGame_ok hcr
                rw [hevs] at hmem
                simp at hmem
    | join s gid =>
        cases hex : execOp c (.join s gid) with
        | error e => rw [applyOp_error hex] at hmem; simp at hmem
        | ok res =>
            rw [applyOp_ok hex] at hmem
            simp only [execOp] at hex
            obtain ⟨c2, evs⟩ := res
            obtain ⟨_, _, _, _, _, hevs⟩ := joinGame_ok hex
            rw [hevs] at hmem
            split at hmem <;> simp at hmem
    | start s gid =>
        cases hex : execOp c (.start s gid) with
        | error e => rw [applyOp_error hex] at hmem; simp at hmem
        | ok res =>
            rw [applyOp_ok hex] at hmem
            simp only [execOp] at hex
            obtain ⟨c2, evs⟩ := res
            obtain ⟨_, _, _, _, hevs⟩ := startGame_ok hex
            rw [hevs] at hmem
            simp at hmem
    | submit s gid eh r2 pf =>
        cases hex : execOp c (.submit s gid eh r2 pf) with
        | error e => rw [applyOp_error hex] at hmem; simp at hmem
        | ok res =>
            rw [applyOp_ok hex] at hmem
            simp only [execOp] at hex
            obtain ⟨c2, evs⟩ := res
            obtain ⟨hhost, hstarted, hj, hns, hpf, hmain⟩ := submitMove_ok hex
            by_cases hlast :
                (c.games gid).movesSubmitted + 1 = (c.games gid).maxPlayers
            · rw [if_pos hlast] at hmain
              rw [hmain.2] at hmem
              simp only [List.mem_cons, List.mem_singleton] at hmem
              rcases hmem with hmem | hmem | hmem
              · exact Event.noConfusion hmem
              · obtain ⟨hg, hr⟩ := Event.RevealRequested.inj hmem
                subst hg; subst hr
                exact ⟨s, eh, pf, rfl, hhost, hstarted, hj, hns, hpf, hlast⟩
              · exact absurd hmem (by simp)
            · rw [if_neg hlast] at hmain
              rw [hmain.2] at hmem
              simp at hmem
    | callback s r2 bs pf =>
        cases hex : execOp c (.callback s r2 bs pf) with
        | error e => rw [applyOp_error hex] at hmem; simp at hmem
        | ok res =>
            rw [applyOp_ok hex] at hmem
            simp only [execOp] at hex
            obtain ⟨c2, evs⟩ := res
            obtain ⟨_, _, _, _, _, _, _, c1, revealed, _, _, hevs⟩ :=
              handleDecryptionResult_ok hex
            rw [hevs] at hmem
            simp at hmem
  · rintro ⟨s, eh, pf, rfl, hhost, hstate, hj, hns, rfl, hlast⟩
    have : execOp c (.submit s g eh r true) =
        .ok ((finalizeSubmissions (submittedContract c s g eh) g r).1,
             [.MoveSubmitted g s, .RevealRequested g r]) :=
      submitMove_fires hhost hstate hj hns hlast
    rw [applyOp_ok this]
    simp

theorem bool_eq_of_iff {x y : Bool} (h : x = true ↔ y = true) : x = y := by
  cases x <;> cases y <;> simp_all

theorem movesFlags_go (ms : List Nat) (a b c : Bool) :
    ms.foldl flagStep (a, b, c) =
      (a || ms.any (fun x => x == 1), b || ms.any (fun x => x == 2),
       c || ms.any (fun x => x == 3)) := by
  induction ms generalizing a b c with
  | nil => simp
  | cons mv rest ih =>
      simp only [List.foldl_cons, List.any_cons, flagStep]
      rw [ih]
      simp [Bool.or_assoc]

theorem movesFlags_spec (ms : List Nat) :
    movesFlags ms = (ms.any (fun x => x == 1), ms.any (fun x => x == 2),
      ms.any (fun x => x == 3)) := by
  unfold movesFlags
  rw [movesFlags_go]
  simp

theorem any_beq_eq_decide_mem (ms : List Nat) (a : Nat) :
    ms.any (fun x => x == a) = decide (a ∈ ms) := by
  apply bool_eq_of_iff
  simp [List.any_eq_true]

theorem movesFlags_perm {l1 l2 : List Nat} (h : l1.Perm l2) :
    movesFlags l1 = movesFlags l2 := by
  rw [movesFlags_spec, movesFlags_spec]
  have hany : ∀ p : Nat → Bool, l1.any p = l2.any p := by
    intro p
    apply bool_eq_of_iff
    simp only [List.any_eq_true]
    constructor
    · rintro ⟨x, hx, hp⟩; exact ⟨x, h.mem_iff.mp hx, hp⟩
    · rintro ⟨x, hx, hp⟩; exact ⟨x, h.mem_iff.mpr hx, hp⟩
  rw [hany, hany, hany]

theorem winningOf_eq_decide (ms : List Nat) :
    winningOf ms =
      determineWinningMove (decide (1 ∈ ms)) (decide (2 ∈ ms)) (decide (3 ∈ ms)) := by
  unfold winningOf
  rw [movesFlags_spec]
  show determineWinningMove (ms.any fun x => x == 1) (ms.any fun x => x == 2)
    (ms.any fun x => x == 3) = _
  rw [any_beq_eq_decide_mem, any_beq_eq_decide_mem, any_beq_eq_decide_mem]

theorem zip_map_fst_snd (l : List (Nat × Nat)) :
    (l.map Prod.fst).zip (l.map Prod.snd) = l := by
  induction l with
  | nil => rfl
  | cons x l ih => simp [ih]

theorem collectWinners_mem {players ms : List Nat} {w : Nat} (hw : w ≠ 0) (a : Nat) :
    a ∈ collectWinners players ms w ↔ (a, w) ∈ players.zip ms := by
  unfold collectWinners
  rw [if_pos hw]
  simp only [List.mem_map, List.mem_filter]
  constructor
  · rintro ⟨⟨x, y⟩, ⟨hmem, hy⟩, hx⟩
    simp only [beq_iff_eq] at hy
    subst hy
    subst hx
    exact hmem
  · intro hmem
    exact ⟨(a, w), ⟨hmem, by simp⟩, rfl⟩

theorem resolveWinners_perm {l1 l2 : List (Nat × Nat)} (h : l1.Perm l2) :
    (resolveWinners l1).Perm (resolveWinners l2) := by
  unfold resolveWinners collectWinners
  have hw : winningOf (l1.map Prod.snd) = winningOf (l2.map Prod.snd) := by
    unfold winningOf
    rw [movesFlags_perm (h.map Prod.snd)]
  rw [hw]
  by_cases hz : winningOf (l2.map Prod.snd) ≠ 0
  · rw [if_pos hz, if_pos hz, zip_map_fst_snd, zip_map_fst_snd]
    exact (h.filter _).map _
  · rw [if_neg hz, if_neg hz]

theorem reachable_runOps {o : Nat} :
    ∀ (ops : List Op) (c : Contract), Reachable o c → WFTrace c ops →
      Reachable o (runOps c ops)
  | [], _, hr, _ => hr
  | op :: rest, c, hr, hwf =>
      reachable_runOps rest (applyOp c op).1 (Reachable.step op hr hwf.1) hwf.2

theorem winningOf_zero_of_count_ne_two {ms : List Nat} (hd : distinctCount ms ≠ 2) :
    winningOf ms = 0 := by
  rw [winningOf_eq_decide]
  unfold distinctCount at hd
  by_cases h1 : 1 ∈ ms <;> by_cases h2 : 2 ∈ ms <;> by_cases h3 : 3 ∈ ms <;>
    simp [h1, h2, h3, determineWinningMove] at hd ⊢

theorem winningOf_pair12 {ms : List Nat} (h1 : 1 ∈ ms) (h2 : 2 ∈ ms) (h3 : 3 ∉ ms) :
    winningOf ms = 2 := by
  rw [winningOf_eq_decide]
  simp [h1, h2, h3, determineWinningMove]

theorem winningOf_pair13 {ms : List Nat} (h1 : 1 ∈ ms) (h3 : 3 ∈ ms) (h2 : 2 ∉ ms) :
    winningOf ms = 1 := by
  rw [winningOf_eq_decide]
  simp [h1, h2, h3, determineWinningMove]

theorem winningOf_pair23 {ms : List Nat} (h2 : 2 ∈ ms) (h3 : 3 ∈ ms) (h1 : 1 ∉ ms) :
    winningOf ms = 3 := by
  rw [winningOf_eq_decide]
  simp [h1, h2, h3, determineWinningMove]

/-- No transaction whatsoever changes the record of a Revealed game. -/
theorem revealed_frame {c : Contract} {gid : Nat} (hinv : Inv c)
    (hrev : (c.games gid).state = .Revealed) (op : Op) :
    (applyOp c op).1.games gid = c.games gid := by
  obtain ⟨hfresh, hgames, hreq, hps, huniq⟩ := hinv
  have hgidlt : gid < c.nextGameId := by
    by_contra hge
    have hd := (hfresh gid (by omega)).1
    rw [hd] at hrev
    exact GameState.noConfusion hrev
  cases op with
  | create s m =>
      cases hex : execOp c (.create s m) with
      | error e => rw [applyOp_error hex]
      | ok res =>
          rw [applyOp_ok hex]
          simp only [execOp] at hex
          cases hcr : createGame c s m with
          | error e => rw [hcr] at hex; exact Except.noConfusion hex
          | ok trip =>
              obtain ⟨gid2, c2, evs⟩ := trip
              rw [hcr] at hex
              simp only [Except.map] at hex
              injection hex with hx
              subst hx
              obtain ⟨_, _, _, _, hc'⟩ := createGame_ok hcr
              show c2.games gid = c.games gid
              rw [hc']
              simp only [setPlayer_games, setGame_games, bumpNext_games]
              rw [if_neg (by omega)]
  | join s g2 =>
      cases hex : execOp c (.join s g2) with
      | error e => rw [applyOp_error hex]
      | ok res =>
          rw [applyOp_ok hex]
          simp only [execOp] at hex
          obtain ⟨c2, evs⟩ := res
          obtain ⟨_, hopen, _, _, hc', _⟩ := joinGame_ok hex
          have hne : gid ≠ g2 := by
            intro he
            rw [he, hopen] at hrev
            exact GameState.noConfusion hrev
          show c2.games gid = c.games gid
          rw [hc']
          simp only [setPlayer_games, setGame_games]
          rw [if_neg hne]
  | start s g2 =>
      cases hex : execOp c (.start s g2) with
      | error e => rw [applyOp_error hex]
      | ok res =>
          rw [applyOp_ok hex]
          simp only [execOp] at hex
          obtain ⟨c2, evs⟩ := res
          obtain ⟨_, _, hready, hc', _⟩ := startGame_ok hex
          have hne : gid ≠ g2 := by
            intro he
            rw [he, hready] at hrev
            exact GameState.noConfusion hrev
          show c2.games gid = c.games gid
          rw [hc']
          simp only [setGame_games]
          rw [if_neg hne]
  | submit s g2 eh r pf =>
      cases hex : execOp c (.submit s g2 eh r pf) with
      | error e => rw [applyOp_error hex]
      | ok res =>
          rw [applyOp_ok hex]
          simp only [execOp] at hex
          obtain ⟨c2, evs⟩ := res
          obtain ⟨_, hstarted, _, _, _, hmain⟩ := submitMove_ok hex
          have hne : gid ≠ g2 := by
            intro he
            rw [he, hstarted] at hrev
            exact GameState.noConfusion hrev
          show c2.games gid = c.games gid
          by_cases hlast : (c.games g2).movesSubmitted + 1 = (c.games g2).maxPlayers
          · rw [if_pos hlast] at hmain
            rw [hmain.1]
            simp only [finalizeSubmissions, setRequest_games, setGame_games]
            rw [if_neg hne]
            rw [submittedContract]
            simp only [setPlayer_games, setGame_games]
            rw [if_neg hne]
          · rw [if_neg hlast] at hmain
            rw [hmain.1, submittedContract]
            simp only [setPlayer_games, setGame_games]
            rw [if_neg hne]
  | callback s r bs pf =>
      cases hex : execOp c (.callback s r bs pf) with
      | error e => rw [applyOp_error hex]
      | ok res =>
          rw [applyOp_ok hex]
          simp only [execOp] at hex
          obtain ⟨c2, evs⟩ := res
          obtain ⟨_, _, _, _, hstate, _, _, c1, revealed, hloop, hc', _⟩ :=
            handleDecryptionResult_ok hex
          obtain ⟨_, _, hf3, _, _⟩ := revealLoop_ok_frame hloop
          have hne : gid ≠ c.requestToGame r - 1 := by
            intro he
            rw [he, hstate] at hrev
            exact GameState.noConfusion hrev
          show c2.games gid = c.games gid
          rw [hc']
          simp only [setRequest_games, setGame_games]
          rw [if_neg hne, hf3]
          simp only [setGame_games]
          rw [if_neg hne]

/-- No well-formed trace changes the record of a Revealed game. -/
theorem revealed_frame_runOps {gid : Nat} :
    ∀ (ops : List Op) (c : Contract), Inv c → (c.games gid).state = .Revealed →
      WFTrace c ops → (runOps c ops).games gid = c.games gid
  | [], _, _, _, _ => rfl
  | op :: rest, c, hinv, hrev, hwf => by
      rw [runOps]
      have hfr := revealed_frame hinv hrev op
      have hrest := revealed_frame_runOps rest (applyOp c op).1
        (inv_applyOp hinv hwf.1) (by rw [hfr]; exact hrev) hwf.2
      rw [hrest, hfr]

/-! The claims. -/
/-- C1: Winner resolution is correct and order-independent.  Over (player,
revealed move) pairs whose moves lie in {1,2,3}: if the number of distinct
move values present is not exactly 2 the winning move is 0 and the winner
list is empty; if exactly two distinct values are present the winning move
is the dominant one of the pair (Paper(2) over Rock(1), Rock(1) over
Scissors(3), Scissors(3) over Paper(2)) and the winners are exactly the
players whose revealed move equals that value; and the winner list is
invariant (as a multiset) under permutation of the pairs. -/
theorem c1_winner_resolution (pairs : List (Nat × Nat))
    (_hm : ∀ q ∈ pairs, q.2 = 1 ∨ q.2 = 2 ∨ q.2 = 3) :
    (distinctCount (pairs.map Prod.snd) ≠ 2 →
       winningOf (pairs.map Prod.snd) = 0 ∧ resolveWinners pairs = []) ∧
    (1 ∈ pairs.map Prod.snd → 2 ∈ pairs.map Prod.snd → 3 ∉ pairs.map Prod.snd →
       winningOf (pairs.map Prod.snd) = 2 ∧
       ∀ a, a ∈ resolveWinners pairs ↔ (a, 2) ∈ pairs) ∧
    (1 ∈ pairs.map Prod.snd → 3 ∈ pairs.map Prod.snd → 2 ∉ pairs.map Prod.snd →
       winningOf (pairs.map Prod.snd) = 1 ∧
       ∀ a, a ∈ resolveWinners pairs ↔ (a, 1) ∈ pairs) ∧
    (2 ∈ pairs.map Prod.snd → 3 ∈ pairs.map Prod.snd → 1 ∉ pairs.map Prod.snd →
       winningOf (pairs.map Prod.snd) = 3 ∧
       ∀ a, a ∈ resolveWinners pairs ↔ (a, 3) ∈ pairs) ∧
    (∀ pairs2, pairs.Perm pairs2 →
       (resolveWinners pairs).Perm (resolveWinners pairs2)) := by
  refine ⟨?_, ?_, ?_, ?_, fun pairs2 h => resolveWinners_perm h⟩
  · intro hd
    have hw := winningOf_zero_of_count_ne_two hd
    refine ⟨hw, ?_⟩
    unfold resolveWinners collectWinners
    simp [hw]
  · intro h1 h2 h3
    have hw := winningOf_pair12 h1 h2 h3
    refine ⟨hw, fun a => ?_⟩
    unfold resolveWinners
    rw [hw]
    rw [collectWinners_mem (by omega) a, zip_map_fst_snd]
  · intro h1 h3 h2
    have hw := winningOf_pair13 h1 h3 h2
    refine ⟨hw, fun a => ?_⟩
    unfold resolveWinners
    rw [hw]
    rw [collectWinners_mem (by omega) a, zip_map_fst_snd]
  · intro h2 h3 h1
    have hw := winningOf_pair23 h2 h3 h1
    refine ⟨hw, fun a => ?_⟩
    unfold resolveWinners
    rw [hw]
    rw [collectWinners_mem (by omega) a, zip_map_fst_snd]

theorem c1_witness :
    winningOf ([((11 : Nat), (1 : Nat)), (12, 2)].map Prod.snd) = 2 ∧
    (12 ∈ resolveWinners [((11 : Nat), (1 : Nat)), (12, 2)] ↔
      ((12 : Nat), (2 : Nat)) ∈ [((11 : Nat), (1 : Nat)), (12, 2)]) := by
  have h := (c1_winner_resolution [((11 : Nat), (1 : Nat)), (12, 2)] (by decide)).2.1
    (by decide) (by decide) (by decide)
  exact ⟨h.1, h.2 12⟩

/-- C2: In every reachable state, every created game satisfies:
players.length is at most maxPlayers; the state is Ready exactly when the
game is full and has not yet been Started (that is, the state is still Open
or Ready); movesSubmitted is at most players.length; and revealRequestId is
nonzero exactly when the state is Revealing or Revealed. -/
theorem c2_game_invariants (o : Nat) (c : Contract) (g : Nat)
    (hr : Reachable o c) (hg : g < c.nextGameId) :
    (c.games g).players.length ≤ (c.games g).maxPlayers ∧
    ((c.games g).state = .Ready ↔
      ((c.games g).players.length = (c.games g).maxPlayers ∧
       ((c.games g).state = .Open ∨ (c.games g).state = .Ready))) ∧
    (c.games g).movesSubmitted ≤ (c.games g).players.length ∧
    ((c.games g).revealRequestId ≠ 0 ↔
      ((c.games g).state = .Revealing ∨ (c.games g).state = .Revealed)) := by
  obtain ⟨_, hgames, _, _, _⟩ := inv_reachable hr
  obtain ⟨_, hm2, _, hlen, hOlt, hNe, hOR, hSt, hRvg, hRvd⟩ := hgames g hg
  refine ⟨hlen, ?_, ?_, ?_⟩
  · constructor
    · intro hready
      exact ⟨hNe (by rw [hready]; simp), Or.inr hready⟩
    · rintro ⟨hfull, hopen | hready⟩
      · have := hOlt hopen
        omega
      · exact hready
  · cases hst : (c.games g).state with
    | Open => rw [(hOR (Or.inl hst)).1]; omega
    | Ready => rw [(hOR (Or.inr hst)).1]; omega
    | Started =>
        have h1 := hSt hst
        have h2 := hNe (by rw [hst]; simp)
        omega
    | Revealing =>
        have h1 := hRvg hst
        have h2 := hNe (by rw [hst]; simp)
        omega
    | Revealed =>
        have h1 := hRvd hst
        have h2 := hNe (by rw [hst]; simp)
        omega
  · constructor
    · intro hne
      cases hst : (c.games g).state with
      | Open => exact absurd (hOR (Or.inl hst)).2 hne
      | Ready => exact absurd (hOR (Or.inr hst)).2 hne
      | Started => exact absurd (hSt hst).2 hne
      | Revealing => exact Or.inl rfl
      | Revealed => exact Or.inr rfl
    · rintro (hst | hst)
      · exact (hRvg hst).2.1
      · exact (hRvd hst).2

theorem c2_witness :
    (demoPre.games 0).players.length ≤ (demoPre.games 0).maxPlayers ∧
    ((demoPre.games 0).state = .Ready ↔
      ((demoPre.games 0).players.length = (demoPre.games 0).maxPlayers ∧
       ((demoPre.games 0).state = .Open ∨ (demoPre.games 0).state = .Ready))) ∧
    (demoPre.games 0).movesSubmitted ≤ (demoPre.games 0).players.length ∧
    ((demoPre.games 0).revealRequestId ≠ 0 ↔
      ((demoPre.games 0).state = .Revealing ∨ (demoPre.games 0).state = .Revealed)) :=
  c2_game_invariants 99 demoPre 0
    (reachable_runOps demoOpsPre (initContract 99) (Reachable.init (by decide)) (by decide))
    (by decide)

/-- C3: For every game, at most one reveal request is ever issued along any
well-formed trace (the notifications for a game account exactly for the
flip of its issued flag, which moves from 0 to at most 1); and a
reveal-request notification for game `g` fires in a step precisely when
that step is a successful submitMove on `g` that brings movesSubmitted up
to maxPlayers — the request is part of that same atomic step. -/
theorem c3_single_reveal_request (o : Nat) (c : Contract) (ops : List Op) (g : Nat)
    (hr : Reachable o c) (hwf : WFTrace c ops) :
    countRR g (traceEvents c ops) + issuedN c g = issuedN (runOps c ops) g ∧
    countRR g (traceEvents c ops) ≤ 1 ∧
    (∀ (c2 : Contract) (op : Op) (r : Nat),
      Event.RevealRequested g r ∈ (applyOp c2 op).2 ↔
        ∃ s eh pf, op = .submit s g eh r pf ∧
          (c2.games g).host ≠ 0 ∧ (c2.games g).state = .Started ∧
          (c2.playerStates g s).joined = true ∧
          (c2.playerStates g s).moveSubmitted = false ∧ pf = true ∧
          (c2.games g).movesSubmitted + 1 = (c2.games g).maxPlayers) := by
  have heq := trace_countRR (inv_reachable hr) hwf g
  refine ⟨heq, ?_, fun c2 op r => step_RR_iff⟩
  have hle := issuedN_le_one (runOps c ops) g
  omega

theorem c3_witness :
    countRR 0 (traceEvents (initContract 99) (demoOpsPre ++ [demoCallback])) = 1 ∧
    countRR 0 (traceEvents (initContract 99) (demoOpsPre ++ [demoCallback])) ≤ 1 := by
  refine ⟨by decide, ?_⟩
  exact (c3_single_reveal_request 99 (initContract 99) (demoOpsPre ++ [demoCallback]) 0
    (Reachable.init (by decide)) (by decide)).2.1

/-- C4 counterexample: in the concrete revealed demo game, startGame by a
non-host caller fails with an authorization error, not with the
state-mismatch error the claim demands for every startGame call against a
Revealed game id. -/
theorem c4_counterexample :
    (demoPost.games 0).state = .Revealed ∧
    (demoPost.games 0).host = 11 ∧
    startGame demoPost 13 0 = .error (.Unauthorized 13) ∧
    RPSError.Unauthorized 13 ≠ RPSError.GameStateMismatch 0 .Ready .Revealed := by
  exact ⟨by decide, by decide, by rfl, by decide⟩

/-- C4 (amended): Revealed is terminal.  For every reachable game in state
Revealed, no operation (and no well-formed trace of operations) changes its
record, so winners and revealedMoves never change and the state stays
Revealed; joinGame and submitMove by any caller fail with a state-mismatch
error reporting expected vs. actual state; startGame fails with the
state-mismatch error when invoked by the host, and with an authorization
error when invoked by anyone else (the host check precedes the state
check). -/
theorem c4_revealed_terminal (o : Nat) (c : Contract) (gid : Nat)
    (hr : Reachable o c) (hrev : (c.games gid).state = .Revealed) :
    (∀ op, ((applyOp c op).1.games gid).winners = (c.games gid).winners ∧
           ((applyOp c op).1.games gid).revealedMoves = (c.games gid).revealedMoves ∧
           ((applyOp c op).1.games gid).state = .Revealed) ∧
    (∀ ops, WFTrace c ops →
       ((runOps c ops).games gid).winners = (c.games gid).winners ∧
       ((runOps c ops).games gid).revealedMoves = (c.games gid).revealedMoves ∧
       ((runOps c ops).games gid).state = .Revealed) ∧
    (∀ s, joinGame c s gid = .error (.GameStateMismatch gid .Open .Revealed)) ∧
    (∀ s eh r2 pf, submitMove c s gid eh r2 pf =
       .error (.GameStateMismatch gid .Started .Revealed)) ∧
    (startGame c (c.games gid).host gid =
       .error (.GameStateMismatch gid .Ready .Revealed)) ∧
    (∀ s, s ≠ (c.games gid).host → startGame c s gid = .error (.Unauthorized s)) := by
  have hinv := inv_reachable hr
  have hinv2 := hinv
  obtain ⟨hfresh, hgames, _, _, _⟩ := hinv2
  have hgidlt : gid < c.nextGameId := by
    by_contra hge
    have hd := (hfresh gid (by omega)).1
    rw [hd] at hrev
    exact GameState.noConfusion hrev
  have hhost : (c.games gid).host ≠ 0 := (hgames gid hgidlt).1
  refine ⟨?_, ?_, ?_, ?_, ?_, ?_⟩
  · intro op
    rw [revealed_frame hinv hrev op]
    exact ⟨rfl, rfl, hrev⟩
  · intro ops hwf
    rw [revealed_frame_runOps ops c hinv hrev hwf]
    exact ⟨rfl, rfl, hrev⟩
  · intro s
    simp only [joinGame]
    rw [if_neg hhost, if_pos (by rw [hrev]; simp), hrev]
  · intro s eh r2 pf
    simp only [submitMove]
    rw [if_neg hhost, if_pos (by rw [hrev]; simp), hrev]
  · simp only [startGame]
    rw [if_neg hhost, if_neg (by simp), if_pos (by rw [hrev]; simp), hrev]
  · intro s hne
    simp only [startGame]
    rw [if_neg hhost, if_pos hne]

theorem c4_witness :
    joinGame demoPost 13 0 = .error (.GameStateMismatch 0 .Open .Revealed) ∧
    submitMove demoPost 12 0 104 9 true =
      .error (.GameStateMismatch 0 .Started .Revealed) ∧
    startGame demoPost 11 0 = .error (.GameStateMismatch 0 .Ready .Revealed) := by
  have h := c4_revealed_terminal 99 demoPost 0
    (reachable_runOps (demoOpsPre ++ [demoCallback]) (initContract 99)
      (Reachable.init (by decide)) (by decide))
    (by decide)
  exact ⟨h.2.2.1 13, h.2.2.2.1 12 104 9 true, h.2.2.2.2.1⟩

/-- C5: A callback from the oracle whose requestId is not currently in the
request-to-game index (never issued or already consumed) fails with the
invalid-reveal-request error and leaves storage untouched; an accepted
callback consumes the index entry for its requestId in the same step, so a
replayed callback with the same requestId is always rejected with the same
error. -/
theorem c5_stale_or_consumed_request (c : Contract) (r : Nat) (bs : List Nat) (pf : Bool) :
    (c.requestToGame r = 0 →
      handleDecryptionResult c c.decryptionOracle r bs pf =
        .error (.InvalidRevealRequest r) ∧
      applyOp c (.callback c.decryptionOracle r bs pf) = (c, [])) ∧
    (∀ s c2 evs, handleDecryptionResult c s r bs pf = .ok (c2, evs) →
      c2.requestToGame r = 0 ∧
      ∀ bs2 pf2, handleDecryptionResult c2 c2.decryptionOracle r bs2 pf2 =
        .error (.InvalidRevealRequest r)) := by
  constructor
  · intro hz
    have herr : handleDecryptionResult c c.decryptionOracle r bs pf =
        .error (.InvalidRevealRequest r) := by
      simp only [handleDecryptionResult]
      rw [if_neg (by simp), if_pos hz]
    exact ⟨herr, applyOp_error herr⟩
  · intro s c2 evs hok
    obtain ⟨_, _, _, _, _, _, _, c1, revealed, hloop, hc', _⟩ :=
      handleDecryptionResult_ok hok
    have hz2 : c2.requestToGame r = 0 := by
      rw [hc']
      simp
    refine ⟨hz2, fun bs2 pf2 => ?_⟩
    simp only [handleDecryptionResult]
    rw [if_neg (by simp), if_pos hz2]

theorem c5_witness :
    demoPost.requestToGame 7 = 0 ∧
    handleDecryptionResult demoPost demoPost.decryptionOracle 7 demoBytes true =
      .error (.InvalidRevealRequest 7) ∧
    handleDecryptionResult (initContract 99) (initContract 99).decryptionOracle 3 [] true =
      .error (.InvalidRevealRequest 3) := by
  have h := (c5_stale_or_consumed_request demoPre 7 demoBytes true).2 99 demoPost
    demoPostEvents rfl
  have h2 := ((c5_stale_or_consumed_request (initContract 99) 3 [] true).1 rfl).1
  exact ⟨h.1, h.2 demoBytes true, h2⟩

/-- C6: An oracle callback that passes routing, proof and length checks but
whose payload decodes, at the first offending slot j, to a move value
outside {1,2,3}, fails as a whole with the invalid-move-value error naming
that decoded value, and storage is untouched (no partial writes). -/
theorem c6_invalid_move_atomic (c : Contract) (s r gid j : Nat) (bs : List Nat)
    (hs : s = c.decryptionOracle)
    (henc : c.requestToGame r = gid + 1)
    (hhost : (c.games gid).host ≠ 0)
    (hreq : (c.games gid).revealRequestId = r)
    (hst : (c.games gid).state = .Revealing)
    (hlen : bs.length = (c.games gid).players.length * 32)
    (hj : j < (c.games gid).players.length)
    (hbad : decodedMove bs j < 1 ∨ decodedMove bs j > 3)
    (hmin : ∀ k < j, 1 ≤ decodedMove bs k ∧ decodedMove bs k ≤ 3) :
    handleDecryptionResult c s r bs true =
      .error (.InvalidMoveValue (decodedMove bs j)) ∧
    applyOp c (.callback s r bs true) = (c, []) := by
  have hbad' : decodedMove bs (0 + j) < 1 ∨ decodedMove bs (0 + j) > 3 := by
    rw [Nat.zero_add]; exact hbad
  have hmin' : ∀ k < j, 1 ≤ decodedMove bs (0 + k) ∧ decodedMove bs (0 + k) ≤ 3 := by
    intro k hk
    rw [Nat.zero_add]
    exact hmin k hk
  have herr : handleDecryptionResult c s r bs true =
      .error (.InvalidMoveValue (decodedMove bs j)) := by
    simp only [handleDecryptionResult]
    rw [if_neg (by simp [hs]), henc]
    simp only [Nat.add_sub_cancel]
    rw [if_neg (by omega), if_neg hhost, if_neg (by simp [hreq]),
        if_neg (by simp [hst]), if_neg (by simp), if_neg (by simp [hlen])]
    rw [revealLoop_first_bad hj hbad' hmin']
    rw [Nat.zero_add]
  exact ⟨herr, applyOp_error herr⟩

theorem c6_witness :
    handleDecryptionResult demoPre 99 7 demoBadBytes true =
      .error (.InvalidMoveValue (decodedMove demoBadBytes 0)) ∧
    applyOp demoPre (.callback 99 7 demoBadBytes true) = (demoPre, []) :=
  c6_invalid_move_atomic demoPre 99 7 0 0 demoBadBytes (by decide) (by decide) (by decide)
    (by decide) (by decide) (by decide) (by decide) (by decide) (by decide)

/-- C7: createGame with maxPlayers outside [2,4] fails with the
invalid-player-limit error and creates nothing; with maxPlayers in [2,4]
it succeeds, returns the prior totalGames value as the fresh game id,
advances the counter, and the new game has the caller as host and as sole
joined player, state Open, movesSubmitted 0 and no reveal request. -/
theorem c7_createGame (o : Nat) (c : Contract) (s m : Nat) (hr : Reachable o c) :
    (m < 2 ∨ 4 < m →
      createGame c s m = .error .InvalidPlayerLimit ∧
      applyOp c (.create s m) = (c, [])) ∧
    (2 ≤ m → m ≤ 4 →
      ∃ c2 evs, createGame c s m = .ok (c.nextGameId, c2, evs) ∧
        c2.nextGameId = c.nextGameId + 1 ∧
        c2.games c.nextGameId =
          { host := s, maxPlayers := m, state := .Open, movesSubmitted := 0,
            revealRequestId := 0, players := [s], winners := [], revealedMoves := [] } ∧
        (c2.playerStates c.nextGameId s).joined = true) := by
  obtain ⟨hfresh, _, _, _, _⟩ := inv_reachable hr
  have hdef : c.games c.nextGameId = {} := (hfresh c.nextGameId le_rfl).1
  constructor
  · intro hbad
    have herr : createGame c s m = .error .InvalidPlayerLimit := by
      unfold createGame
      rw [if_pos (by omega)]
    have herr2 : execOp c (.create s m) = .error .InvalidPlayerLimit := by
      simp only [execOp, herr, Except.map]
    exact ⟨herr, applyOp_error herr2⟩
  · intro h2 h4
    have hok : createGame c s m = .ok (c.nextGameId,
        (c.bumpNext.setGame c.nextGameId (createdGame c s m)).setPlayer c.nextGameId s
          { c.playerStates c.nextGameId s with joined := true },
        [.GameCreated c.nextGameId s m, .PlayerJoined c.nextGameId s]) := by
      unfold createGame
      rw [if_neg (by omega)]
      rfl
    refine ⟨_, _, hok, by simp, ?_, by simp⟩
    simp [createdGame, hdef]

theorem c7_witness :
    (createGame (initContract 99) 11 5 = .error .InvalidPlayerLimit ∧
      applyOp (initContract 99) (.create 11 5) = (initContract 99, [])) ∧
    (∃ c2 evs, createGame (initContract 99) 11 2 = .ok ((initContract 99).nextGameId, c2, evs) ∧
      c2.nextGameId = (initContract 99).nextGameId + 1 ∧
      c2.games (initContract 99).nextGameId =
        { host := 11, maxPlayers := 2, state := .Open, movesSubmitted := 0,
          revealRequestId := 0, players := [11], winners := [], revealedMoves := [] } ∧
      (c2.playerStates (initContract 99).nextGameId 11).joined = true) := by
  have hr : Reachable 99 (initContract 99) := Reachable.init (by decide)
  exact ⟨(c7_createGame 99 (initContract 99) 11 5 hr).1 (by omega),
         (c7_createGame 99 (initContract 99) 11 2 hr).2 (by omega) (by omega)⟩

/-- C8 counterexample: in the demo game that has reached Revealing, player
11 has already submitted, yet a second submitMove by 11 fails with a
state-mismatch error and not with the duplicate-action error the claim
demands regardless of game state. -/
theorem c8_counterexample :
    (demoPre.playerStates 0 11).moveSubmitted = true ∧
    submitMove demoPre 11 0 103 9 true =
      .error (.GameStateMismatch 0 .Started .Revealing) ∧
    RPSError.GameStateMismatch 0 .Started .Revealing ≠
      RPSError.MoveAlreadySubmitted 0 11 := by
  exact ⟨by decide, by rfl, by decide⟩

/-- C8 (amended): a second submitMove by a player who already submitted a
move in that game always fails with no storage change — with the
duplicate-action error exactly when the game is still in Started state,
and with a state-mismatch error (expected Started vs. the actual state)
once the game has moved past Started. -/
theorem c8_duplicate_submission (o : Nat) (c : Contract) (s gid eh r2 : Nat) (pf : Bool)
    (hr : Reachable o c) (hsub : (c.playerStates gid s).moveSubmitted = true) :
    submitMove c s gid eh r2 pf =
      .error (if (c.games gid).state = .Started
              then .MoveAlreadySubmitted gid s
              else .GameStateMismatch gid .Started (c.games gid).state) ∧
    applyOp c (.submit s gid eh r2 pf) = (c, []) := by
  obtain ⟨hfresh, hgames, _, hps, _⟩ := inv_reachable hr
  have hgidlt : gid < c.nextGameId := by
    by_contra hge
    have hd := (hfresh gid (by omega)).2 s
    rw [hd] at hsub
    simp at hsub
  have hhost : (c.games gid).host ≠ 0 := (hgames gid hgidlt).1
  have hjoined := hps gid s hsub
  have herr : submitMove c s gid eh r2 pf =
      .error (if (c.games gid).state = .Started
              then .MoveAlreadySubmitted gid s
              else .GameStateMismatch gid .Started (c.games gid).state) := by
    simp only [submitMove]
    rw [if_neg hhost]
    by_cases hst : (c.games gid).state = .Started
    · rw [if_neg (by simp [hst]), if_neg (by simp [hjoined]), if_pos hsub, if_pos hst]
    · rw [if_pos hst, if_neg hst]
  exact ⟨herr, applyOp_error herr⟩

theorem c8_witness :
    submitMove demoMid 11 0 103 9 true =
      .error (if (demoMid.games 0).state = .Started
              then .MoveAlreadySubmitted 0 11
              else .GameStateMismatch 0 .Started (demoMid.games 0).state) ∧
    applyOp demoMid (.submit 11 0 103 9 true) = (demoMid, []) :=
  c8_duplicate_submission 99 demoMid 11 0 103 9 true
    (reachable_runOps demoOpsMid (initContract 99) (Reachable.init (by decide)) (by decide))
    (by decide)

/-- C9 counterexample: the demo game is full (2 of 2 players) and identity
13 has not joined, yet joinGame fails with a state-mismatch error (expected
Open, actual Ready), not with the capacity-exceeded error the claim
demands. -/
theorem c9_counterexample :
    (demoFull.games 0).players.length = (demoFull.games 0).maxPlayers ∧
    (demoFull.playerStates 0 13).joined = false ∧
    joinGame demoFull 13 0 = .error (.GameStateMismatch 0 .Open .Ready) ∧
    RPSError.GameStateMismatch 0 .Open .Ready ≠ RPSError.GameIsFull 0 := by
  exact ⟨by decide, by decide, by rfl, by decide⟩

/-- C9 (amended): joining a full reachable game always fails and leaves the
game unchanged, but with a state-mismatch error (expected Open vs. the
actual state — a full reachable game is never Open, the state check runs
before the capacity check), not with the capacity-exceeded error. -/
theorem c9_join_full_game (o : Nat) (c : Contract) (s gid : Nat)
    (hr : Reachable o c) (hgid : gid < c.nextGameId)
    (hfull : (c.games gid).players.length = (c.games gid).maxPlayers) :
    joinGame c s gid = .error (.GameStateMismatch gid .Open (c.games gid).state) ∧
    (c.games gid).state ≠ .Open ∧
    applyOp c (.join s gid) = (c, []) := by
  obtain ⟨_, hgames, _, _, _⟩ := inv_reachable hr
  obtain ⟨hhost, _, _, _, hOlt, _, _, _, _, _⟩ := hgames gid hgid
  have hnotopen : (c.games gid).state ≠ .Open := by
    intro ho
    have := hOlt ho
    omega
  have herr : joinGame c s gid =
      .error (.GameStateMismatch gid .Open (c.games gid).state) := by
    simp only [joinGame]
    rw [if_neg hhost, if_pos hnotopen]
  exact ⟨herr, hnotopen, applyOp_error herr⟩

theorem c9_witness :
    joinGame demoFull 13 0 =
      .error (.GameStateMismatch 0 .Open (demoFull.games 0).state) ∧
    (demoFull.games 0).state ≠ .Open ∧
    applyOp demoFull (.join 13 0) = (demoFull, []) :=
  c9_join_full_game 99 demoFull 13 0
    (reachable_runOps demoOpsFull (initContract 99) (Reachable.init (by decide)) (by decide))
    (by decide) (by decide)

/-- C10: the reverse index stores gameId + 1 (so entry 0 means no
outstanding request even for game id 0), `_finalizeSubmissions` records
exactly that encoding, and every accepted callback is routed to the game
recovered as entry minus 1 — which is exactly the (unique, under the
storage invariant) game whose recorded revealRequestId equals the
requestId; the entry is consumed, all other games are untouched, and the
routed game (in particular game 0) ends Revealed. -/
theorem c10_request_index_routing (c : Contract) (s r : Nat) (bs : List Nat) (pf : Bool)
    (c2 : Contract) (evs : List Event)
    (hok : handleDecryptionResult c s r bs pf = .ok (c2, evs)) :
    c.requestToGame r ≠ 0 ∧
    (c.games (c.requestToGame r - 1)).revealRequestId = r ∧
    (c2.games (c.requestToGame r - 1)).state = .Revealed ∧
    (∀ g, g ≠ c.requestToGame r - 1 → c2.games g = c.games g) ∧
    c2.requestToGame r = 0 ∧
    (∀ c3 gid reqId,
      ((finalizeSubmissions c3 gid reqId).1.requestToGame reqId = gid + 1)) ∧
    (Inv c → ∀ g2, g2 < c.nextGameId → (c.games g2).revealRequestId = r →
      g2 = c.requestToGame r - 1) := by
  obtain ⟨_, henc, _, hreqid, hstate, _, _, c1, revealed, hloop, hc', _⟩ :=
    handleDecryptionResult_ok hok
  obtain ⟨_, _, hf3, hf4, _⟩ := revealLoop_ok_frame hloop
  refine ⟨henc, hreqid, ?_, ?_, ?_, ?_, ?_⟩
  · rw [hc']; simp
  · intro g hg
    rw [hc']
    simp only [setRequest_games, setGame_games]
    rw [if_neg hg, hf3]
    simp only [setGame_games]
    rw [if_neg hg]
  · rw [hc']; simp
  · intro c3 gid reqId
    simp [finalizeSubmissions]
  · intro hinv g2 hg2 hrr
    obtain ⟨_, hgames, hreqI, _, huniq⟩ := hinv
    obtain ⟨hTlt, _, _⟩ := hreqI r henc
    have hrne : (c.games g2).revealRequestId ≠ 0 := by
      rw [hrr]
      obtain ⟨_, _, _, _, _, _, _, _, hRvg, _⟩ := hgames (c.requestToGame r - 1) hTlt
      have hx := (hRvg hstate).2.1
      rw [hreqid] at hx
      exact hx
    exact huniq g2 (c.requestToGame r - 1) hg2 hTlt hrne (by rw [hrr, hreqid])

theorem c10_witness :
    demoPre.requestToGame 7 ≠ 0 ∧
    (demoPre.games (demoPre.requestToGame 7 - 1)).revealRequestId = 7 ∧
    (demoPost.games (demoPre.requestToGame 7 - 1)).state = .Revealed ∧
    demoPost.requestToGame 7 = 0 ∧
    demoPre.requestToGame 7 - 1 = 0 := by
  have h := c10_request_index_routing demoPre 99 7 demoBytes true demoPost
    demoPostEvents rfl
  exact ⟨h.1, h.2.1, h.2.2.1, h.2.2.2.2.1, by decide⟩

end RPS
